import Mathlib

/-!
Verification of the friend-network collector of the DangerFinder repository
(`src/collectors/friend_collector.py`).

Strings are modelled as lists of characters (`Chars`), mirroring Python
strings.  The fragment of `urllib.parse` used by the collector (`urlparse`,
`parse_qs`) is embedded directly; percent-decoding and plus-decoding are not
modelled (no input considered here contains escape sequences), the scheme is
not lower-cased (it is never inspected downstream), and `;parameters`
splitting is not modelled (no input contains a semicolon).
-/

namespace DangerFinder

/-- A Python string, as a list of characters. -/
abbrev Chars := List Char

/-- Characters of a string literal. -/
def chars (s : String) : Chars := s.data

/-- Splits a list at the first occurrence of `c`: the pair of the longest
prefix not containing `c` and, when `c` occurs, the remainder after it.
This is the building block for Python `split` and for `urlparse`. -/
def breakAtFirst (c : Char) : Chars → Chars × Option Chars
  | [] => ([], none)
  | a :: as =>
    if a = c then ([], some as)
    else
      let r := breakAtFirst c as
      (a :: r.1, r.2)

/-- The longest prefix containing none of the characters in `stops`, paired
with the remainder (which starts with a stop character when nonempty). -/
def breakUntilAny (stops : List Char) : Chars → Chars × Chars
  | [] => ([], [])
  | a :: as =>
    if a ∈ stops then ([], a :: as)
    else
      let r := breakUntilAny stops as
      (a :: r.1, r.2)

/-- Python `s.strip(c)` for a single strip character: removes all leading and
trailing occurrences of `c`. -/
def stripChar (c : Char) (l : Chars) : Chars :=
  ((l.dropWhile (· = c)).reverse.dropWhile (· = c)).reverse

/-- Python substring containment `pat in s`. -/
def isSubstr (pat : Chars) : Chars → Bool
  | [] => pat.isEmpty
  | a :: as => pat.isPrefixOf (a :: as) || isSubstr pat as

/-- Characters admissible in a URL scheme, per `urllib.parse`: a letter
followed by letters, digits, `+`, `-` or `.`. -/
def isSchemeChars : Chars → Bool
  | [] => false
  | a :: as => a.isAlpha && as.all fun c => c.isAlphanum || c = '+' || c = '-' || c = '.'

/-- Python `s.split(c)`: always returns at least one component. -/
def splitOnChar (c : Char) : Chars → List Chars
  | [] => [[]]
  | a :: as =>
    if a = c then [] :: splitOnChar c as
    else
      match splitOnChar c as with
      | [] => [[a]]
      | h :: t => (a :: h) :: t

/-- Result of `urllib.parse.urlparse` restricted to the components the
collector reads. -/
structure ParsedUrl where
  scheme : Chars
  netloc : Chars
  path : Chars
  query : Chars
  fragment : Chars
deriving DecidableEq, Repr

/-- Embedding of `urllib.parse.urlparse` on the components used by the
collector.  Python splits the fragment off after parsing the netloc;
splitting it first is equivalent because a netloc never contains `#`
(the netloc scan stops at `/`, `?` and `#` alike). -/
def urlparse (url : Chars) : ParsedUrl :=
  let fr := breakAtFirst '#' url
  let fragment := fr.2.getD []
  let beforeFrag := fr.1
  let sch := breakAtFirst ':' beforeFrag
  let scheme := if sch.2.isSome ∧ isSchemeChars sch.1 then sch.1 else []
  let afterScheme :=
    match sch.2 with
    | some after => if isSchemeChars sch.1 then after else beforeFrag
    | none => beforeFrag
  let hasNetloc := afterScheme.take 2 = ['/', '/']
  let nl := breakUntilAny ['/', '?'] (afterScheme.drop 2)
  let netloc := if hasNetloc then nl.1 else []
  let afterNetloc := if hasNetloc then nl.2 else afterScheme
  let q := breakAtFirst '?' afterNetloc
  ⟨scheme, netloc, q.1, q.2.getD [], fragment⟩

/-- Embedding of `urllib.parse.parse_qsl` with default arguments: components
separated by `&`; components without `=` or with an empty value are dropped
(`keep_blank_values` is false).  Percent-decoding is not modelled. -/
def parseQsl (q : Chars) : List (Chars × Chars) :=
  (splitOnChar '&' q).filterMap fun comp =>
    match breakAtFirst '=' comp with
    | (_, none) => none
    | (k, some v) => if v = [] then none else some (k, v)

/-- Looks up a key in an insertion-ordered association list (a Python dict). -/
def lookupAssoc {β : Type} : List (Chars × β) → Chars → Option β
  | [], _ => none
  | (k2, v) :: rest, k => if k2 = k then some v else lookupAssoc rest k

/-- Python dict assignment `d[k] = v` on an insertion-ordered association
list: replaces in place or appends at the end. -/
def updateAssoc {β : Type} : List (Chars × β) → Chars → β → List (Chars × β)
  | [], k, v => [(k, v)]
  | (k2, v2) :: rest, k, v =>
    if k2 = k then (k, v) :: rest else (k2, v2) :: updateAssoc rest k v

/-- Appends one value to the list held at `k`, creating the entry if absent;
mirrors `parsed_result[name].append(value)` in `parse_qs`. -/
def appendAssoc : List (Chars × List Chars) → Chars → Chars → List (Chars × List Chars)
  | [], k, v => [(k, [v])]
  | (k2, vs) :: rest, k, v =>
    if k2 = k then (k2, vs ++ [v]) :: rest else (k2, vs) :: appendAssoc rest k v

/-- Embedding of `urllib.parse.parse_qs` with default arguments: values are
grouped per name in order of first appearance. -/
def parseQs (q : Chars) : List (Chars × List Chars) :=
  (parseQsl q).foldl (fun m kv => appendAssoc m kv.1 kv.2) []

/-- The hosts accepted by `_normalize_url` (`friend_collector.py` line 379). -/
def validNetlocs : List Chars :=
  [chars "facebook.com", chars "www.facebook.com", chars "m.facebook.com", chars "fb.com"]

/-- Embedding of `FriendListCollector._normalize_url` (lines 374 to 396).
`none` models the `ValueError` raised for a URL whose host is not a
recognised Facebook domain. -/
def normalizeUrl (url : Chars) : Option Chars :=
  let parsed := urlparse url
  if parsed.netloc ∈ validNetlocs then
    let netloc := chars "www.facebook.com"
    let path := stripChar '/' parsed.path
    if isSubstr (chars "profile.php") path then
      some (chars "https://" ++ netloc ++ ['/'] ++ path ++ ['?'] ++ parsed.query)
    else
      let path2 := if '/' ∈ path then (breakAtFirst '/' path).1 else path
      some (chars "https://" ++ netloc ++ ['/'] ++ path2)
  else none

/-- Embedding of `FriendListCollector._extract_profile_id` (lines 398 to 412).
The `profile.php?id=` form yields the first `id` query value; otherwise the
first segment of the stripped path (the username) is the id. -/
def extractProfileId (url : Chars) : Chars :=
  let parsed := urlparse url
  let fromQuery : Option Chars :=
    if isSubstr (chars "profile.php") parsed.path then
      match lookupAssoc (parseQs parsed.query) (chars "id") with
      | some (v :: _) => some v
      | _ => none
    else none
  match fromQuery with
  | some v => v
  | none =>
    let path := stripChar '/' parsed.path
    if '/' ∈ path then (breakAtFirst '/' path).1 else path

/-- Embedding of `FriendListCollector._get_friends_url` (lines 414 to 426). -/
def getFriendsUrl (profileUrl : Chars) : Chars :=
  let parsed := urlparse profileUrl
  let baseUrl := parsed.scheme ++ chars "://" ++ parsed.netloc
  let path := stripChar '/' parsed.path
  if isSubstr (chars "profile.php") path then
    baseUrl ++ ['/'] ++ path ++ chars "/friends?" ++ parsed.query
  else
    baseUrl ++ ['/'] ++ path ++ chars "/friends"

/-- The canonical id of a raw profile reference: normalization followed by id
extraction, the pipeline applied to the seed and to every collected URL. -/
def canonicalId (url : Chars) : Option Chars :=
  (normalizeUrl url).map extractProfileId

/-! ## Data model (`friend_collector.py` lines 32 to 77)

Timestamps (`last_update`, `collected_at`) are real-time side effects and are
not modelled; no claim mentions them. -/

/-- The `Friend` dataclass (lines 32 to 45), timestamp omitted. -/
structure Friend where
  profile_id : Chars
  name : Chars
  profile_url : Chars
  profile_picture : Option Chars := none
  mutual_friends_count : Option Nat := none
deriving DecidableEq, Repr

/-- The `FriendshipEdge` dataclass (lines 48 to 58), timestamp omitted. -/
structure FriendshipEdge where
  source_id : Chars
  target_id : Chars
  mutual_friends_count : Option Nat := none
deriving DecidableEq, Repr

/-- The fields of `ProfileBasicInfo` the traversal stores; the record is
abstract to the collector, which only keys it by id. -/
structure ProfileBasicInfo where
  name : Chars
  profile_url : Chars
deriving DecidableEq, Repr

/-- One entry of the BFS queue: the `(id, url, depth)` triples held in
`self.queue` (line 210). -/
structure FrontierEntry where
  id : Chars
  url : Chars
  depth : Nat
deriving DecidableEq, Repr

/-- The mutable state of a `FriendListCollector` instance: `visited_profiles`,
`friend_cache`, `queue` and `edges` (lines 73 to 76).  Python sets and dicts
are modelled as lists with explicit membership and insertion-ordered update.

Two ghost fields observe events that the claims speak about without changing
any computed value: `navLog` records each friends-page URL the collector
navigates to (the `navigate_to` calls), and `edgeLog` records each friendship
edge written during the current traversal run (it is cleared when a run
starts, while `edges` itself is never cleared, faithful to the source). -/
structure CollectorState where
  visited_profiles : List Chars
  friend_cache : List (Chars × List Friend)
  edges : List (Chars × FriendshipEdge)
  queue : List FrontierEntry
  navLog : List Chars
  edgeLog : List FriendshipEdge
deriving DecidableEq, Repr

/-- Python `set.add`. -/
def setInsert (x : Chars) (l : List Chars) : List Chars :=
  if x ∈ l then l else x :: l

/-- What the friends page of one profile does, as far as the collector can
observe.  `error` is a raised navigation or browser failure (surfacing as
`ScrapingError`), `restricted` is `_is_content_restricted()` returning true,
and `pages visible` is the incremental content: `visible k` is the list
returned by `_extract_visible_friends` after `k` scrolls.  The scroll script
itself is assumed not to raise. -/
inductive FriendsPage where
  | error : FriendsPage
  | restricted : FriendsPage
  | pages : (Nat → List Friend) → FriendsPage

/-- The abstract page data source behind the collector: profile extraction
(`profile_extractor.extract_profile`, `none` modelling a raised exception)
keyed by the URL it is called with, and the friends page behaviour keyed by
the normalized profile URL. -/
structure PageSource where
  extractProfile : Chars → Option ProfileBasicInfo
  friendsPage : Chars → FriendsPage

/-- `max_scrolls = 20` (line 131). -/
def maxScrolls : Nat := 20

/-- The body of the `for friend in new_friends` loop (lines 139 to 154):
appends friends whose id is new, records the edge under the key
`f"{profile_id}_{friend.profile_id}"`, and breaks once `max_friends` is
reached.  Returns the grown list, the dedup set and the updated state. -/
def addNewFriends (profileId : Chars) (maxFriends : Nat) :
    List Friend → List Friend → List Chars → CollectorState →
    List Friend × List Chars × CollectorState
  | [], friends, ids, st => (friends, ids, st)
  | f :: fs, friends, ids, st =>
    if f.profile_id ∈ ids then
      addNewFriends profileId maxFriends fs friends ids st
    else
      let friends2 := friends ++ [f]
      let ids2 := f.profile_id :: ids
      let edge : FriendshipEdge := ⟨profileId, f.profile_id, f.mutual_friends_count⟩
      let key := profileId ++ '_' :: f.profile_id
      let st2 := { st with
        edges := updateAssoc st.edges key edge,
        edgeLog := st.edgeLog ++ [edge] }
      if maxFriends ≤ friends2.length then (friends2, ids2, st2)
      else addNewFriends profileId maxFriends fs friends2 ids2 st2

/-- The scroll loop of `collect_friends` (lines 134 to 163).  The source
guard is `while len(friends) < max_friends and scroll_count < max_scrolls`;
here `fuel` stands for `max_scrolls - scroll_count`, so the second conjunct
is the `fuel` pattern match and the loop is structurally recursive. -/
def scrollLoop (visible : Nat → List Friend) (profileId : Chars) (maxFriends : Nat) :
    Nat → Nat → List Friend → List Chars → CollectorState →
    List Friend × CollectorState
  | 0, _, friends, _, st => (friends, st)
  | fuel + 1, scrollCount, friends, ids, st =>
    if friends.length < maxFriends then
      let newFriends := visible scrollCount
      let r := addNewFriends profileId maxFriends newFriends friends ids st
      if r.1.length < maxFriends then
        scrollLoop visible profileId maxFriends fuel (scrollCount + 1) r.1 r.2.1 r.2.2
      else (r.1, r.2.2)
    else (friends, st)

/-- Embedding of `FriendListCollector.collect_friends` (lines 81 to 175).
The first component is `none` when the call raises (`ValueError` from
normalization, or `ScrapingError`); the second is the instance state after
the call, which on the cached and restricted paths is reached without any
page navigation. -/
def collectFriends (src : PageSource) (st : CollectorState) (url : Chars)
    (maxFriends : Nat) : Option (List Friend) × CollectorState :=
  match normalizeUrl url with
  | none => (none, st)
  | some profileUrl =>
    let profileId := extractProfileId profileUrl
    match lookupAssoc st.friend_cache profileId with
    | some cached => (some (cached.take maxFriends), st)
    | none =>
      let st := { st with navLog := st.navLog ++ [getFriendsUrl profileUrl] }
      match src.friendsPage profileUrl with
      | .error => (none, st)
      | .restricted =>
        (some [], { st with friend_cache := updateAssoc st.friend_cache profileId [] })
      | .pages visible =>
        let r := scrollLoop visible profileId maxFriends maxScrolls 0 [] [] st
        (some r.1, { r.2 with friend_cache := updateAssoc r.2.friend_cache profileId r.1 })

/-! ## Network traversal (`traverse_network`, lines 179 to 262) -/

/-- The summary dictionary built at line 253. -/
structure TravSummary where
  seed_profile : Chars
  profiles_visited : Nat
  max_depth_reached : Nat
  profiles_collected : Nat
  friendship_edges : Nat
deriving DecidableEq, Repr

/-- How a `traverse_network` call ends.

* `summary`: normal return of the results dictionary.
* `nameErrorRandom`: the pacing delay `time.sleep(random.uniform(1, 3))` at
  line 248 raised `NameError`, because `random` is imported only inside the
  `if __name__ == "__main__"` block (line 557) and is unbound at module scope
  when the module is imported; the statement sits after the per-node
  `try/except`, so the exception aborts the whole call.
* `unboundLocalError`: the summary expression `current_depth if self.queue
  else max_depth` (line 256) read `current_depth` although no loop iteration
  ever bound it, which happens exactly when `max_profiles = 0` leaves the
  seed in the queue.
* `invalidUrl`: the seed URL failed `_normalize_url` (`ValueError`).
* `fuelOut`: artefact of the fuel-based embedding of the while loop, proved
  unreachable below (`traverseNetwork_ne_fuelOut`). -/
inductive TravOutcome where
  | summary : TravSummary → TravOutcome
  | nameErrorRandom : TravOutcome
  | unboundLocalError : TravOutcome
  | invalidUrl : TravOutcome
  | fuelOut : TravOutcome
deriving DecidableEq, Repr

/-- The running state of one `traverse_network` call: the instance state plus
the loop locals `profiles_visited`, `profiles_collected` and the last value
bound to `current_depth`.  Three ghost logs observe the events the claims
quantify over: every dequeued entry, every processed (profile-fetched) entry
as `(id, depth)` (the line 222 log statement), and every enqueued child as
`(parent id, entry)`. -/
structure RunState where
  st : CollectorState
  profilesVisited : Nat
  profilesCollected : List (Chars × ProfileBasicInfo)
  lastDepth : Option Nat
  dequeueLog : List FrontierEntry
  fetchLog : List (Chars × Nat)
  enqueueLog : List (Chars × FrontierEntry)
deriving Repr

/-- The `for friend in friends` enqueue loop (lines 239 to 241): a friend is
appended to the queue unless its id is already in `visited_profiles`.  The
queue itself is not consulted.  Also returns the ghost enqueue log. -/
def enqueueFriends (parent : Chars) (depth : Nat) (friends : List Friend)
    (visited : List Chars) :
    List FrontierEntry → List (Chars × FrontierEntry) →
    List FrontierEntry × List (Chars × FrontierEntry) :=
  fun queue enqLog =>
    match friends with
    | [] => (queue, enqLog)
    | f :: fs =>
      if f.profile_id ∈ visited then
        enqueueFriends parent depth fs visited queue enqLog
      else
        let entry : FrontierEntry := ⟨f.profile_id, f.profile_url, depth⟩
        enqueueFriends parent depth fs visited (queue ++ [entry]) (enqLog ++ [(parent, entry)])

/-- Loop exit (lines 251 to 262): builds the results dictionary.  The
`max_depth_reached` entry evaluates `current_depth` only when the queue is
nonempty; if no iteration ever bound it this read raises
`UnboundLocalError`. -/
def finishRun (seedId : Chars) (maxDepth : Nat) (rs : RunState) : TravOutcome × RunState :=
  if rs.st.queue.isEmpty then
    (.summary ⟨seedId, rs.profilesVisited, maxDepth, rs.profilesCollected.length,
        rs.st.edges.length⟩, rs)
  else
    match rs.lastDepth with
    | some d =>
      (.summary ⟨seedId, rs.profilesVisited, d, rs.profilesCollected.length,
          rs.st.edges.length⟩, rs)
    | none => (.unboundLocalError, rs)

/-- The `while self.queue and profiles_visited < max_profiles` loop (lines
216 to 248).  One fuel unit per iteration; `traverseNetwork` supplies more
fuel than any execution can consume (`traverseNetwork_ne_fuelOut`).

The body mirrors the source line by line: dequeue and bind `current_depth`;
skip ids already visited; mark visited and count; extract the profile (a
raised exception is caught at line 243 and the loop continues); stop
expanding at `current_depth >= max_depth`; otherwise collect friends (again
with exceptions caught) and enqueue the unvisited ones.  A fully processed
expansion step then reaches the pacing delay at line 248, which raises
`NameError` because `random` is unbound at module scope. -/
def traverseLoop (src : PageSource) (seedId : Chars)
    (maxDepth maxProfiles maxFriendsPerProfile : Nat) :
    Nat → RunState → TravOutcome × RunState
  | 0, rs => (.fuelOut, rs)
  | fuel + 1, rs =>
    match rs.st.queue with
    | [] => finishRun seedId maxDepth rs
    | entry :: rest =>
      if rs.profilesVisited < maxProfiles then
        let rs := { rs with
          st := { rs.st with queue := rest },
          dequeueLog := rs.dequeueLog ++ [entry],
          lastDepth := some entry.depth }
        if entry.id ∈ rs.st.visited_profiles then
          traverseLoop src seedId maxDepth maxProfiles maxFriendsPerProfile fuel rs
        else
          let rs := { rs with
            st := { rs.st with visited_profiles := setInsert entry.id rs.st.visited_profiles },
            profilesVisited := rs.profilesVisited + 1,
            fetchLog := rs.fetchLog ++ [(entry.id, entry.depth)] }
          match src.extractProfile entry.url with
          | none =>
            traverseLoop src seedId maxDepth maxProfiles maxFriendsPerProfile fuel rs
          | some prof =>
            let rs := { rs with
              profilesCollected := updateAssoc rs.profilesCollected entry.id prof }
            if maxDepth ≤ entry.depth then
              traverseLoop src seedId maxDepth maxProfiles maxFriendsPerProfile fuel rs
            else
              match collectFriends src rs.st entry.url maxFriendsPerProfile with
              | (none, st2) =>
                traverseLoop src seedId maxDepth maxProfiles maxFriendsPerProfile fuel
                  { rs with st := st2 }
              | (some friends, st2) =>
                let q := enqueueFriends entry.id (entry.depth + 1) friends
                  st2.visited_profiles st2.queue rs.enqueueLog
                (.nameErrorRandom,
                  { rs with st := { st2 with queue := q.1 }, enqueueLog := q.2 })
      else finishRun seedId maxDepth rs

/-- Embedding of `FriendListCollector.traverse_network` (lines 179 to 262)
with explicit arguments (the claims always supply `max_depth` and
`max_profiles`, so the config defaults are not modelled).  The seed is
normalized (a `ValueError` propagates), `visited_profiles` and `queue` are
reset, the caches and edges are not, and the BFS loop runs. -/
def traverseNetwork (src : PageSource) (st0 : CollectorState) (seedUrl : Chars)
    (maxDepth maxProfiles maxFriendsPerProfile : Nat) : TravOutcome × RunState :=
  match normalizeUrl seedUrl with
  | none => (.invalidUrl, ⟨st0, 0, [], none, [], [], []⟩)
  | some seedUrlN =>
    let seedId := extractProfileId seedUrlN
    let st := { st0 with
      visited_profiles := [],
      queue := [⟨seedId, seedUrlN, 0⟩],
      edgeLog := [] }
    traverseLoop src seedId maxDepth maxProfiles maxFriendsPerProfile
      (maxProfiles + 2) ⟨st, 0, [], none, [], [], []⟩

/-! ## Derived characterization of a run

The following definitions are not part of the source; they name the states a
run passes through, for use in the theorem statements and proofs below. -/

/-- The instance state at the moment the seed collect step runs: the seed has
been dequeued and marked visited, nothing else has changed. -/
def seedCollectState (st0 : CollectorState) (seedId : Chars) : CollectorState :=
  { st0 with visited_profiles := [seedId], queue := [], edgeLog := [] }

/-- The frontier entry the seed is enqueued as. -/
def seedEntry (seedId seedUrlN : Chars) : FrontierEntry := ⟨seedId, seedUrlN, 0⟩

/-- The run state just after initialization (line 209 to 213): visited set
and queue reset, loop locals zeroed, ghost logs empty. -/
def initRunState (st0 : CollectorState) (seedId nu : Chars) : RunState :=
  ⟨{ st0 with visited_profiles := [], queue := [seedEntry seedId nu], edgeLog := [] },
   0, [], none, [], [], []⟩

/-- The observable result of `traverse_network` with a positive budget, as a
function of what the page source does at the seed.  `traverseNetwork_char`
below proves this is exactly what the embedded code computes; every
subsequent theorem about whole runs goes through it. -/
def seedRunResult (src : PageSource) (st0 : CollectorState) (seedId nu : Chars)
    (md mf : Nat) : TravOutcome × RunState :=
  match src.extractProfile nu with
  | none =>
    (.summary ⟨seedId, 1, md, 0, st0.edges.length⟩,
     ⟨seedCollectState st0 seedId, 1, [], some 0, [seedEntry seedId nu], [(seedId, 0)], []⟩)
  | some prof =>
    if md = 0 then
      (.summary ⟨seedId, 1, md, 1, st0.edges.length⟩,
       ⟨seedCollectState st0 seedId, 1, [(seedId, prof)], some 0,
        [seedEntry seedId nu], [(seedId, 0)], []⟩)
    else
      match collectFriends src (seedCollectState st0 seedId) nu mf with
      | (none, st2) =>
        (.summary ⟨seedId, 1, md, 1, st2.edges.length⟩,
         ⟨st2, 1, [(seedId, prof)], some 0, [seedEntry seedId nu], [(seedId, 0)], []⟩)
      | (some friends, st2) =>
        let q := enqueueFriends seedId 1 friends st2.visited_profiles st2.queue []
        (.nameErrorRandom,
         ⟨{ st2 with queue := q.1 }, 1, [(seedId, prof)], some 0,
          [seedEntry seedId nu], [(seedId, 0)], q.2⟩)

/-! ## Invariants and concrete scenarios used by the claims -/

/-- Well-formedness of the friend cache: every cached list is free of
duplicate ids.  Every list the code itself writes into the cache has this
property (`collectFriends_cacheWF`); a fresh collector starts with an empty
cache, so the invariant holds in every reachable state. -/
def CacheWF (st : CollectorState) : Prop :=
  ∀ pr ∈ st.friend_cache, ((pr.2.map Friend.profile_id).Nodup : Prop)

/-- A collector fresh out of `__init__`: everything empty. -/
def emptyState : CollectorState := ⟨[], [], [], [], [], []⟩

/-- A concrete friend entry for the scenarios: username `s`, profile URL
`https://www.facebook.com/s`. -/
def mkFriend (s : String) : Friend :=
  { profile_id := chars s, name := chars s, profile_url := chars ("https://www.facebook.com/" ++ s) }

/-- The page source of the claimed scenario: seed `a` has friends `b` and
`c`, profile `b` has friends `a` and `d`, every other friend list is empty,
and every profile extraction succeeds. -/
def srcScenario : PageSource where
  extractProfile := fun u => some ⟨chars "profile", u⟩
  friendsPage := fun u =>
    if u = chars "https://www.facebook.com/a" then .pages fun _ => [mkFriend "b", mkFriend "c"]
    else if u = chars "https://www.facebook.com/b" then
      .pages fun _ => [mkFriend "a", mkFriend "d"]
    else .pages fun _ => []

/-- A page source whose profile extraction always raises and whose friends
pages always fail: the all-failing environment. -/
def srcFailing : PageSource where
  extractProfile := fun _ => none
  friendsPage := fun _ => .error

/-- A page source where every friend list is access-restricted. -/
def srcRestricted : PageSource where
  extractProfile := fun u => some ⟨chars "profile", u⟩
  friendsPage := fun _ => .restricted

/-- The stall stub of the claims: every content load shows the same three
friends and pagination never ends. -/
def srcStall : PageSource where
  extractProfile := fun u => some ⟨chars "profile", u⟩
  friendsPage := fun _ => .pages fun _ => [mkFriend "b1", mkFriend "b2", mkFriend "b3"]

/-- A username-path reference on the domain `dom`. -/
def mkUserUrl (dom u : Chars) : Chars := chars "https://" ++ dom ++ '/' :: u

/-- A username-path reference with a trailing path part after the username. -/
def mkUserUrlSeg (dom u rest : Chars) : Chars :=
  chars "https://" ++ dom ++ '/' :: (u ++ '/' :: rest)

/-- A numeric-id query-form reference on the domain `dom` with query `q`. -/
def mkIdUrl (dom q : Chars) : Chars := chars "https://" ++ dom ++ chars "/profile.php?" ++ q

/-- Modelled from the claim text, for refutation: the valid reference forms
of one profile whose username is `u` and whose numeric id is `n` are the
username-path form (with or without trailing path segments) and the
numeric-id query form, each over all four accepted domains. -/
def profileReferenceForms (u n : Chars) : List Chars :=
  (validNetlocs.map fun d => mkUserUrl d u) ++
    (validNetlocs.map fun d => mkUserUrlSeg d u (chars "about")) ++
    validNetlocs.map fun d => mkIdUrl d (chars "id=" ++ n)

/-! ## Basic lemmas -/

@[simp] lemma updateAssoc_nil {β : Type} (k : Chars) (v : β) :
    updateAssoc [] k v = [(k, v)] := rfl

@[simp] lemma lookupAssoc_nil {β : Type} (k : Chars) :
    lookupAssoc ([] : List (Chars × β)) k = none := rfl

@[simp] lemma setInsert_nil (x : Chars) : setInsert x [] = [x] := by simp [setInsert]

lemma addNewFriends_preserve (pid : Chars) (mF : Nat) (fs : List Friend) :
    ∀ (fr : List Friend) (ids : List Chars) (st : CollectorState),
      ((addNewFriends pid mF fs fr ids st).2.2).queue = st.queue ∧
      ((addNewFriends pid mF fs fr ids st).2.2).visited_profiles = st.visited_profiles ∧
      ((addNewFriends pid mF fs fr ids st).2.2).navLog = st.navLog ∧
      ((addNewFriends pid mF fs fr ids st).2.2).friend_cache = st.friend_cache := by
  induction fs with
  | nil => intro fr ids st; simp [addNewFriends]
  | cons f fs ih =>
    intro fr ids st
    by_cases h : f.profile_id ∈ ids
    · simpa [addNewFriends, h] using ih fr ids st
    · simp only [addNewFriends, if_neg h]
      split
      · simp
      · simpa using ih (fr ++ [f]) (f.profile_id :: ids) _

lemma scrollLoop_preserve (visible : Nat → List Friend) (pid : Chars) (mF : Nat) :
    ∀ (fuel sc : Nat) (fr : List Friend) (ids : List Chars) (st : CollectorState),
      ((scrollLoop visible pid mF fuel sc fr ids st).2).queue = st.queue ∧
      ((scrollLoop visible pid mF fuel sc fr ids st).2).visited_profiles = st.visited_profiles ∧
      ((scrollLoop visible pid mF fuel sc fr ids st).2).navLog = st.navLog ∧
      ((scrollLoop visible pid mF fuel sc fr ids st).2).friend_cache = st.friend_cache := by
  intro fuel
  induction fuel with
  | zero => intro sc fr ids st; simp [scrollLoop]
  | succ fuel ih =>
    intro sc fr ids st
    by_cases h : fr.length < mF
    · have hp := addNewFriends_preserve pid mF (visible sc) fr ids st
      by_cases h2 : (addNewFriends pid mF (visible sc) fr ids st).1.length < mF
      · have hr := ih (sc + 1) (addNewFriends pid mF (visible sc) fr ids st).1
          (addNewFriends pid mF (visible sc) fr ids st).2.1
          (addNewFriends pid mF (visible sc) fr ids st).2.2
        simp only [scrollLoop, if_pos h, if_pos h2]
        exact ⟨hr.1.trans hp.1, hr.2.1.trans hp.2.1, hr.2.2.1.trans hp.2.2.1,
          hr.2.2.2.trans hp.2.2.2⟩
      · simp only [scrollLoop, if_pos h, if_neg h2]
        exact hp
    · simp [scrollLoop, h]

lemma collectFriends_preserve (src : PageSource) (st : CollectorState) (url : Chars)
    (mf : Nat) :
    ((collectFriends src st url mf).2).queue = st.queue ∧
    ((collectFriends src st url mf).2).visited_profiles = st.visited_profiles := by
  unfold collectFriends
  cases hn : normalizeUrl url with
  | none => simp
  | some pu =>
    cases hl : lookupAssoc st.friend_cache (extractProfileId pu) with
    | some cached => simp [hl]
    | none =>
      cases hp : src.friendsPage pu with
      | error => simp [hl, hp]
      | restricted => simp [hl, hp]
      | pages visible =>
        have hs := scrollLoop_preserve visible (extractProfileId pu) mf maxScrolls 0 [] []
          { st with navLog := st.navLog ++ [getFriendsUrl pu] }
        simp only [hl, hp]
        exact ⟨by simpa using hs.1, by simpa using hs.2.1⟩

/-! ## Run characterization -/

lemma traverseNetwork_invalid (src : PageSource) (st0 : CollectorState)
    (seedUrl : Chars) (md mp mf : Nat) (hn : normalizeUrl seedUrl = none) :
    traverseNetwork src st0 seedUrl md mp mf = (.invalidUrl, ⟨st0, 0, [], none, [], [], []⟩) := by
  simp [traverseNetwork, hn]

lemma traverseNetwork_budget_zero (src : PageSource) (st0 : CollectorState)
    (seedUrl : Chars) (md mf : Nat) (nu : Chars)
    (hn : normalizeUrl seedUrl = some nu) :
    traverseNetwork src st0 seedUrl md 0 mf =
      (.unboundLocalError, initRunState st0 (extractProfileId nu) nu) := by
  simp [traverseNetwork, hn, traverseLoop, finishRun, initRunState, seedEntry]

/-- With a positive budget and a valid seed, the embedded loop computes
exactly `seedRunResult`: the whole run is determined by what the source does
at the seed, because every continue path empties the queue and a complete
expansion step aborts at the line 248 `NameError`. -/
lemma traverseNetwork_char (src : PageSource) (st0 : CollectorState)
    (seedUrl : Chars) (md mp mf : Nat) (nu : Chars)
    (hn : normalizeUrl seedUrl = some nu) (hmp : 0 < mp) :
    traverseNetwork src st0 seedUrl md mp mf =
      seedRunResult src st0 (extractProfileId nu) nu md mf := by
  obtain ⟨k, rfl⟩ : ∃ k, mp = k + 1 := ⟨mp - 1, by omega⟩
  simp only [traverseNetwork, hn]
  cases hx : src.extractProfile nu with
  | none =>
    simp [traverseLoop, hx, seedRunResult, seedCollectState, finishRun, seedEntry]
  | some prof =>
    rcases Nat.eq_zero_or_pos md with hmd | hmd
    · subst hmd
      simp [traverseLoop, hx, seedRunResult, seedCollectState, finishRun, seedEntry]
    · have hmd2 : ¬ md ≤ 0 := by omega
      cases hc : collectFriends src
          ⟨[extractProfileId nu], st0.friend_cache, st0.edges, [], st0.navLog, []⟩ nu mf with
      | mk res st2 =>
        have hq2 : st2.queue = [] := by
          have h1 := (collectFriends_preserve src
            ⟨[extractProfileId nu], st0.friend_cache, st0.edges, [], st0.navLog, []⟩ nu mf).1
          rw [hc] at h1
          exact h1
        cases res with
        | none =>
          simp [traverseLoop, hx, hc, hq2, seedRunResult, seedCollectState, finishRun,
            seedEntry, hmd2, Nat.pos_iff_ne_zero.mp hmd]
        | some friends =>
          simp [traverseLoop, hx, hc, seedRunResult, seedCollectState, finishRun,
            seedEntry, hmd2, Nat.pos_iff_ne_zero.mp hmd]

/-- The loop-local observables common to every positive-budget run: exactly
one profile is ever dequeued and fetched (the seed), whatever the source
does. -/
lemma seedRunResult_rs (src : PageSource) (st0 : CollectorState) (seedId nu : Chars)
    (md mf : Nat) :
    (seedRunResult src st0 seedId nu md mf).2.profilesVisited = 1 ∧
    (seedRunResult src st0 seedId nu md mf).2.fetchLog = [(seedId, 0)] ∧
    (seedRunResult src st0 seedId nu md mf).2.dequeueLog = [seedEntry seedId nu] ∧
    (seedRunResult src st0 seedId nu md mf).2.st.visited_profiles = [seedId] := by
  unfold seedRunResult
  cases hx : src.extractProfile nu with
  | none => simp [seedCollectState]
  | some prof =>
    by_cases hmd : md = 0
    · simp [hmd, seedCollectState]
    · cases hc : collectFriends src (seedCollectState st0 seedId) nu mf with
      | mk res st2 =>
        have hv : st2.visited_profiles = [seedId] := by
          have h1 := (collectFriends_preserve src (seedCollectState st0 seedId) nu mf).2
          rw [hc] at h1
          simpa [seedCollectState] using h1
        cases res with
        | none => simp [hmd, hv]
        | some friends => simp [hmd, hv]

lemma seedRunResult_ne_fuelOut (src : PageSource) (st0 : CollectorState)
    (seedId nu : Chars) (md mf : Nat) :
    (seedRunResult src st0 seedId nu md mf).1 ≠ .fuelOut := by
  unfold seedRunResult
  cases hx : src.extractProfile nu with
  | none => simp
  | some prof =>
    by_cases hmd : md = 0
    · simp [hmd]
    · cases hc : collectFriends src (seedCollectState st0 seedId) nu mf with
      | mk res st2 => cases res <;> simp [hmd]

/-- The fuel supplied by `traverseNetwork` is never exhausted: the `fuelOut`
outcome of the embedding is unreachable, so the model is total exactly where
the source loop terminates or raises. -/
theorem traverseNetwork_ne_fuelOut (src : PageSource) (st0 : CollectorState)
    (seedUrl : Chars) (md mp mf : Nat) :
    (traverseNetwork src st0 seedUrl md mp mf).1 ≠ .fuelOut := by
  cases hn : normalizeUrl seedUrl with
  | none => simp [traverseNetwork_invalid src st0 seedUrl md mp mf hn]
  | some nu =>
    rcases Nat.eq_zero_or_pos mp with hmp | hmp
    · subst hmp
      simp [traverseNetwork_budget_zero src st0 seedUrl md mf nu hn]
    · rw [traverseNetwork_char src st0 seedUrl md mp mf nu hn hmp]
      exact seedRunResult_ne_fuelOut src st0 (extractProfileId nu) nu md mf

/-- C2: in every traversal run, whatever the seed, the limits and the page
source behaviour, each canonical id is profile-fetched at most once: the
processed-profile log contains no id twice. -/
theorem c2_no_duplicate_visits (src : PageSource) (st0 : CollectorState)
    (seedUrl : Chars) (md mp mf : Nat) :
    (((traverseNetwork src st0 seedUrl md mp mf).2).fetchLog.map Prod.fst).Nodup := by
  cases hn : normalizeUrl seedUrl with
  | none => simp [traverseNetwork_invalid src st0 seedUrl md mp mf hn]
  | some nu =>
    rcases Nat.eq_zero_or_pos mp with hmp | hmp
    · subst hmp
      simp [traverseNetwork_budget_zero src st0 seedUrl md mf nu hn, initRunState]
    · rw [traverseNetwork_char src st0 seedUrl md mp mf nu hn hmp]
      rw [(seedRunResult_rs src st0 (extractProfileId nu) nu md mf).2.1]
      simp

/-- C3: the visited-profile budget is respected: with a valid seed the
visited counter, the processed-profile log and the visited set never grow
beyond `max_profiles`. -/
theorem c3_budget_bound (src : PageSource) (st0 : CollectorState)
    (seedUrl nu : Chars) (md mp mf : Nat)
    (hn : normalizeUrl seedUrl = some nu) :
    (traverseNetwork src st0 seedUrl md mp mf).2.profilesVisited ≤ mp ∧
    (traverseNetwork src st0 seedUrl md mp mf).2.fetchLog.length ≤ mp ∧
    (traverseNetwork src st0 seedUrl md mp mf).2.st.visited_profiles.length ≤ mp := by
  rcases Nat.eq_zero_or_pos mp with hmp | hmp
  · subst hmp
    simp [traverseNetwork_budget_zero src st0 seedUrl md mf nu hn, initRunState]
  · rw [traverseNetwork_char src st0 seedUrl md mp mf nu hn hmp]
    have h := seedRunResult_rs src st0 (extractProfileId nu) nu md mf
    rw [h.1, h.2.1, h.2.2.2]
    simpa using hmp

/-- Witness for C3 at a concrete input: the all-failing source, a fresh
collector, seed `a`, budget 5. -/
theorem c3_budget_bound_witness :
    (traverseNetwork srcFailing emptyState (chars "https://www.facebook.com/a") 1 5 50).2.profilesVisited ≤ 5 ∧
    (traverseNetwork srcFailing emptyState (chars "https://www.facebook.com/a") 1 5 50).2.fetchLog.length ≤ 5 ∧
    (traverseNetwork srcFailing emptyState (chars "https://www.facebook.com/a") 1 5 50).2.st.visited_profiles.length ≤ 5 :=
  c3_budget_bound srcFailing emptyState (chars "https://www.facebook.com/a")
    (chars "https://www.facebook.com/a") 1 5 50 (by decide)

/-- C1: what the code actually does on the claimed scenario (seed `a` with
friends `b`, `c`; profile `b` with friends `a`, `d`; `max_depth = 1`,
`max_profiles = 10`): after processing the seed and enqueueing `b` and `c`,
the pacing delay raises `NameError`, so the run aborts with one profile
visited instead of visiting `a`, `b`, `c` and returning a summary.  The
edges `a-b` and `a-c` are recorded before the abort; `b` and `c` are still
queued, `d` was never discovered. -/
theorem c1_scenario_aborts_with_name_error :
    (traverseNetwork srcScenario emptyState (chars "https://www.facebook.com/a") 1 10 50).1 =
        .nameErrorRandom ∧
    (traverseNetwork srcScenario emptyState (chars "https://www.facebook.com/a") 1 10 50).2.profilesVisited = 1 ∧
    (traverseNetwork srcScenario emptyState (chars "https://www.facebook.com/a") 1 10 50).2.fetchLog =
        [(chars "a", 0)] ∧
    (traverseNetwork srcScenario emptyState (chars "https://www.facebook.com/a") 1 10 50).2.st.queue =
        [⟨chars "b", chars "https://www.facebook.com/b", 1⟩,
         ⟨chars "c", chars "https://www.facebook.com/c", 1⟩] ∧
    (traverseNetwork srcScenario emptyState (chars "https://www.facebook.com/a") 1 10 50).2.st.edgeLog =
        [⟨chars "a", chars "b", none⟩, ⟨chars "a", chars "c", none⟩] := by
  decide

/-- C10: whenever a dequeued profile is processed to completion through the
friend-expansion step (its profile extracted and its friends collected,
which requires its depth below `max_depth`, true of the seed whenever
`0 < max_depth`), the loop reaches `time.sleep(random.uniform(1, 3))` at
line 248, outside the per-node try/except; `random` is unbound at module
scope, so the call aborts with `NameError` after that first fully processed
profile instead of continuing the BFS loop to a summary. -/
theorem c10_pacing_delay_name_error (src : PageSource) (st0 : CollectorState)
    (seedUrl nu : Chars) (md mp mf : Nat)
    (hn : normalizeUrl seedUrl = some nu) (hmd : 0 < md) (hmp : 0 < mp)
    (hx : (src.extractProfile nu).isSome = true)
    (hc : ((collectFriends src (seedCollectState st0 (extractProfileId nu)) nu mf).1).isSome = true) :
    (traverseNetwork src st0 seedUrl md mp mf).1 = .nameErrorRandom ∧
    (traverseNetwork src st0 seedUrl md mp mf).2.profilesVisited = 1 := by
  rw [traverseNetwork_char src st0 seedUrl md mp mf nu hn hmp]
  refine ⟨?_, (seedRunResult_rs src st0 (extractProfileId nu) nu md mf).1⟩
  unfold seedRunResult
  cases hx2 : src.extractProfile nu with
  | none => rw [hx2] at hx; simp at hx
  | some prof =>
    cases hc2 : collectFriends src (seedCollectState st0 (extractProfileId nu)) nu mf with
    | mk res st2 =>
      cases res with
      | none => rw [hc2] at hc; simp at hc
      | some friends => simp [Nat.pos_iff_ne_zero.mp hmd, hc2]

/-- Witness for C10: the scenario source, seed `a`, `max_depth = 1`,
`max_profiles = 10`. -/
theorem c10_pacing_delay_name_error_witness :
    (traverseNetwork srcScenario emptyState (chars "https://www.facebook.com/a") 1 10 50).1 =
        .nameErrorRandom ∧
    (traverseNetwork srcScenario emptyState (chars "https://www.facebook.com/a") 1 10 50).2.profilesVisited = 1 :=
  c10_pacing_delay_name_error srcScenario emptyState (chars "https://www.facebook.com/a")
    (chars "https://www.facebook.com/a") 1 10 50 (by decide) (by decide) (by decide)
    (by decide) (by decide)

/-- C4 counterexample: a node can be dequeued at depth equal to `max_depth`
without its profile being recorded.  With `max_depth = 0`, budget 1 and a
source whose profile extraction raises, the seed is dequeued at depth
`0 = max_depth`, yet the collected-profiles map stays empty, against the
claimed unconditional "profile fetched and recorded". -/
theorem c4_depth_policy_counterexample :
    (⟨chars "a", chars "https://www.facebook.com/a", 0⟩ : FrontierEntry) ∈
      (traverseNetwork srcFailing emptyState
        (chars "https://www.facebook.com/a") 0 1 50).2.dequeueLog ∧
    (traverseNetwork srcFailing emptyState
      (chars "https://www.facebook.com/a") 0 1 50).2.profilesCollected = [] := by
  decide

/-- C4 amended: a node dequeued at depth equal to `max_depth` has its
profile fetch attempted, and recorded when the extraction succeeds; in
either case its friends are not collected: no friendship edge with it as
source is written during the run and none of its friends are enqueued. -/
theorem c4_depth_policy (src : PageSource) (st0 : CollectorState)
    (seedUrl : Chars) (md mp mf : Nat) (e : FrontierEntry)
    (he : e ∈ (traverseNetwork src st0 seedUrl md mp mf).2.dequeueLog)
    (hd : e.depth = md) :
    (e.id, e.depth) ∈ (traverseNetwork src st0 seedUrl md mp mf).2.fetchLog ∧
    (∀ p, src.extractProfile e.url = some p →
      lookupAssoc (traverseNetwork src st0 seedUrl md mp mf).2.profilesCollected e.id = some p) ∧
    (∀ ed ∈ (traverseNetwork src st0 seedUrl md mp mf).2.st.edgeLog, ed.source_id ≠ e.id) ∧
    (∀ q ∈ (traverseNetwork src st0 seedUrl md mp mf).2.enqueueLog, q.1 ≠ e.id) := by
  cases hn : normalizeUrl seedUrl with
  | none =>
    rw [traverseNetwork_invalid src st0 seedUrl md mp mf hn] at he
    simp at he
  | some nu =>
    rcases Nat.eq_zero_or_pos mp with hmp | hmp
    · subst hmp
      rw [traverseNetwork_budget_zero src st0 seedUrl md mf nu hn] at he
      simp [initRunState] at he
    · rw [traverseNetwork_char src st0 seedUrl md mp mf nu hn hmp] at he ⊢
      have hrs := seedRunResult_rs src st0 (extractProfileId nu) nu md mf
      rw [hrs.2.2.1] at he
      have he2 : e = seedEntry (extractProfileId nu) nu := by simpa using he
      subst he2
      have hmd : md = 0 := by simpa [seedEntry] using hd.symm
      subst hmd
      unfold seedRunResult
      cases hx : src.extractProfile nu with
      | none =>
        refine ⟨by simp [seedEntry], ?_, by simp [seedCollectState], by simp⟩
        intro p hp
        rw [show (seedEntry (extractProfileId nu) nu).url = nu from rfl, hx] at hp
        exact absurd hp (by simp)
      | some prof =>
        refine ⟨by simp [seedEntry], ?_, by simp [seedCollectState], by simp⟩
        intro p hp
        rw [show (seedEntry (extractProfileId nu) nu).url = nu from rfl, hx] at hp
        obtain rfl : prof = p := by injection hp
        simp [seedEntry, lookupAssoc]

/-- Witness for C4 at a concrete input: every-list-restricted source, seed
`a`, `max_depth = 0`, budget 1; the seed is dequeued at depth 0. -/
theorem c4_depth_policy_witness :
    ((⟨chars "a", chars "https://www.facebook.com/a", 0⟩ : FrontierEntry).id,
      (⟨chars "a", chars "https://www.facebook.com/a", 0⟩ : FrontierEntry).depth) ∈
      (traverseNetwork srcRestricted emptyState
        (chars "https://www.facebook.com/a") 0 1 50).2.fetchLog ∧
    (∀ p, srcRestricted.extractProfile
        (⟨chars "a", chars "https://www.facebook.com/a", 0⟩ : FrontierEntry).url = some p →
      lookupAssoc (traverseNetwork srcRestricted emptyState
        (chars "https://www.facebook.com/a") 0 1 50).2.profilesCollected
        (⟨chars "a", chars "https://www.facebook.com/a", 0⟩ : FrontierEntry).id = some p) ∧
    (∀ ed ∈ (traverseNetwork srcRestricted emptyState
        (chars "https://www.facebook.com/a") 0 1 50).2.st.edgeLog,
      ed.source_id ≠ (⟨chars "a", chars "https://www.facebook.com/a", 0⟩ : FrontierEntry).id) ∧
    (∀ q ∈ (traverseNetwork srcRestricted emptyState
        (chars "https://www.facebook.com/a") 0 1 50).2.enqueueLog,
      q.1 ≠ (⟨chars "a", chars "https://www.facebook.com/a", 0⟩ : FrontierEntry).id) :=
  c4_depth_policy srcRestricted emptyState (chars "https://www.facebook.com/a") 0 1 50
    ⟨chars "a", chars "https://www.facebook.com/a", 0⟩ (by decide) (by decide)

lemma mem_updateAssoc {β : Type} (m : List (Chars × β)) (k : Chars) (v : β)
    (p : Chars × β) (hp : p ∈ updateAssoc m k v) : p = (k, v) ∨ p ∈ m := by
  induction m with
  | nil => simpa [updateAssoc] using hp
  | cons kv rest ih =>
    rcases kv with ⟨k2, v2⟩
    by_cases h : k2 = k
    · rw [show updateAssoc ((k2, v2) :: rest) k v = (k, v) :: rest by
        simp [updateAssoc, h]] at hp
      rcases List.mem_cons.mp hp with h2 | h2
      · exact Or.inl h2
      · exact Or.inr (List.mem_cons_of_mem _ h2)
    · rw [show updateAssoc ((k2, v2) :: rest) k v = (k2, v2) :: updateAssoc rest k v by
        simp [updateAssoc, h]] at hp
      rcases List.mem_cons.mp hp with h2 | h2
      · exact Or.inr (h2 ▸ List.mem_cons_self _ _)
      · rcases ih h2 with h3 | h3
        · exact Or.inl h3
        · exact Or.inr (List.mem_cons_of_mem _ h3)

lemma lookupAssoc_mem {β : Type} (m : List (Chars × β)) (k : Chars) (v : β)
    (h : lookupAssoc m k = some v) : (k, v) ∈ m := by
  induction m with
  | nil => simp [lookupAssoc] at h
  | cons kv rest ih =>
    rcases kv with ⟨k2, v2⟩
    by_cases h2 : k2 = k
    · subst h2
      simp [lookupAssoc] at h
      subst h
      exact List.mem_cons_self _ _
    · rw [show lookupAssoc ((k2, v2) :: rest) k = lookupAssoc rest k by
        simp [lookupAssoc, h2]] at h
      exact List.mem_cons_of_mem _ (ih h)

lemma addNewFriends_invariant (pid : Chars) (mF : Nat) :
    ∀ (fs fr : List Friend) (ids : List Chars) (st : CollectorState),
      (fr.map Friend.profile_id).Nodup →
      (∀ i ∈ fr.map Friend.profile_id, i ∈ ids) →
      fr.length < mF →
      (((addNewFriends pid mF fs fr ids st).1.map Friend.profile_id).Nodup ∧
       (∀ i ∈ (addNewFriends pid mF fs fr ids st).1.map Friend.profile_id,
          i ∈ (addNewFriends pid mF fs fr ids st).2.1) ∧
       (addNewFriends pid mF fs fr ids st).1.length ≤ mF) := by
  intro fs
  induction fs with
  | nil =>
    intro fr ids st h1 h2 h3
    refine ⟨by simpa [addNewFriends] using h1, by simpa [addNewFriends] using h2, ?_⟩
    simp only [addNewFriends]
    omega
  | cons f fs ih =>
    intro fr ids st h1 h2 h3
    by_cases hm : f.profile_id ∈ ids
    · rw [show addNewFriends pid mF (f :: fs) fr ids st
          = addNewFriends pid mF fs fr ids st by simp [addNewFriends, hm]]
      exact ih fr ids st h1 h2 h3
    · have h1' : ((fr ++ [f]).map Friend.profile_id).Nodup := by
        simp only [List.map_append, List.map_cons, List.map_nil]
        refine List.Nodup.append h1 (by simp) ?_
        intro a ha hb
        simp at hb
        exact hm (hb ▸ h2 a ha)
      have h2' : ∀ i ∈ (fr ++ [f]).map Friend.profile_id, i ∈ f.profile_id :: ids := by
        intro i hi
        simp only [List.map_append, List.map_cons, List.map_nil, List.mem_append] at hi
        rcases hi with hi | hi
        · exact List.mem_cons_of_mem _ (h2 i hi)
        · simp at hi
          simp [hi]
      by_cases hb : mF ≤ fr.length + 1
      · simp only [addNewFriends, if_neg hm, List.length_append, List.length_cons,
          List.length_nil, Nat.zero_add, if_pos hb]
        exact ⟨h1', h2', by simpa using h3⟩
      · simp only [addNewFriends, if_neg hm, List.length_append, List.length_cons,
          List.length_nil, Nat.zero_add, if_neg hb]
        exact ih (fr ++ [f]) (f.profile_id :: ids) _ h1' h2' (by simpa using Nat.not_le.mp hb)

lemma scrollLoop_invariant (visible : Nat → List Friend) (pid : Chars) (mF : Nat) :
    ∀ (fuel sc : Nat) (fr : List Friend) (ids : List Chars) (st : CollectorState),
      (fr.map Friend.profile_id).Nodup →
      (∀ i ∈ fr.map Friend.profile_id, i ∈ ids) →
      fr.length ≤ mF →
      (((scrollLoop visible pid mF fuel sc fr ids st).1.map Friend.profile_id).Nodup ∧
       (scrollLoop visible pid mF fuel sc fr ids st).1.length ≤ mF) := by
  intro fuel
  induction fuel with
  | zero => intro sc fr ids st h1 h2 h3; exact ⟨by simpa [scrollLoop] using h1,
      by simpa [scrollLoop] using h3⟩
  | succ fuel ih =>
    intro sc fr ids st h1 h2 h3
    by_cases h : fr.length < mF
    · have ha := addNewFriends_invariant pid mF (visible sc) fr ids st h1 h2 h
      by_cases h2b : (addNewFriends pid mF (visible sc) fr ids st).1.length < mF
      · simp only [scrollLoop, if_pos h, if_pos h2b]
        exact ih (sc + 1) _ _ _ ha.1 ha.2.1 ha.2.2
      · simp only [scrollLoop, if_pos h, if_neg h2b]
        exact ⟨ha.1, ha.2.2⟩
    · simp only [scrollLoop, if_neg h]
      exact ⟨h1, h3⟩

/-! Branch equations for `collectFriends`. -/

lemma collectFriends_invalid (src : PageSource) (st : CollectorState) (url : Chars)
    (mf : Nat) (hn : normalizeUrl url = none) :
    collectFriends src st url mf = (none, st) := by
  simp [collectFriends, hn]

lemma collectFriends_cached (src : PageSource) (st : CollectorState) (url pu : Chars)
    (mf : Nat) (cached : List Friend) (hn : normalizeUrl url = some pu)
    (hl : lookupAssoc st.friend_cache (extractProfileId pu) = some cached) :
    collectFriends src st url mf = (some (cached.take mf), st) := by
  simp [collectFriends, hn, hl]

lemma collectFriends_error (src : PageSource) (st : CollectorState) (url pu : Chars)
    (mf : Nat) (hn : normalizeUrl url = some pu)
    (hl : lookupAssoc st.friend_cache (extractProfileId pu) = none)
    (hp : src.friendsPage pu = .error) :
    collectFriends src st url mf =
      (none, { st with navLog := st.navLog ++ [getFriendsUrl pu] }) := by
  simp [collectFriends, hn, hl, hp]

lemma collectFriends_restricted (src : PageSource) (st : CollectorState) (url pu : Chars)
    (mf : Nat) (hn : normalizeUrl url = some pu)
    (hl : lookupAssoc st.friend_cache (extractProfileId pu) = none)
    (hp : src.friendsPage pu = .restricted) :
    collectFriends src st url mf =
      (some [],
        { st with
            navLog := st.navLog ++ [getFriendsUrl pu],
            friend_cache := updateAssoc st.friend_cache (extractProfileId pu) [] }) := by
  simp [collectFriends, hn, hl, hp]

lemma collectFriends_pages (src : PageSource) (st : CollectorState) (url pu : Chars)
    (mf : Nat) (visible : Nat → List Friend) (hn : normalizeUrl url = some pu)
    (hl : lookupAssoc st.friend_cache (extractProfileId pu) = none)
    (hp : src.friendsPage pu = .pages visible) :
    collectFriends src st url mf =
      (some (scrollLoop visible (extractProfileId pu) mf maxScrolls 0 [] []
          { st with navLog := st.navLog ++ [getFriendsUrl pu] }).1,
       { (scrollLoop visible (extractProfileId pu) mf maxScrolls 0 [] []
            { st with navLog := st.navLog ++ [getFriendsUrl pu] }).2 with
         friend_cache := updateAssoc
           (scrollLoop visible (extractProfileId pu) mf maxScrolls 0 [] []
              { st with navLog := st.navLog ++ [getFriendsUrl pu] }).2.friend_cache
           (extractProfileId pu)
           (scrollLoop visible (extractProfileId pu) mf maxScrolls 0 [] []
              { st with navLog := st.navLog ++ [getFriendsUrl pu] }).1 }) := by
  simp [collectFriends, hn, hl, hp]

/-- Any successfully returned friend list is deduplicated by id and no
longer than `max_friends`, provided the cache holds only deduplicated lists
(which the code guarantees, `collectFriends_cacheWF`). -/
lemma collectFriends_result_spec (src : PageSource) (st : CollectorState)
    (url : Chars) (mf : Nat) (l : List Friend) (hwf : CacheWF st)
    (hc : (collectFriends src st url mf).1 = some l) :
    (l.map Friend.profile_id).Nodup ∧ l.length ≤ mf := by
  cases hn : normalizeUrl url with
  | none => rw [collectFriends_invalid src st url mf hn] at hc; simp at hc
  | some pu =>
    cases hl : lookupAssoc st.friend_cache (extractProfileId pu) with
    | some cached =>
      rw [collectFriends_cached src st url pu mf cached hn hl] at hc
      simp at hc
      subst hc
      constructor
      · rw [List.map_take]
        exact List.Nodup.sublist (List.take_sublist _ _) (hwf _ (lookupAssoc_mem _ _ _ hl))
      · simp
    | none =>
      cases hp : src.friendsPage pu with
      | error => rw [collectFriends_error src st url pu mf hn hl hp] at hc; simp at hc
      | restricted =>
        rw [collectFriends_restricted src st url pu mf hn hl hp] at hc
        simp at hc
        subst hc
        simp
      | pages visible =>
        rw [collectFriends_pages src st url pu mf visible hn hl hp] at hc
        simp at hc
        subst hc
        exact scrollLoop_invariant visible (extractProfileId pu) mf maxScrolls 0 [] [] _
          (by simp) (by simp) (by simp)

/-- Every write `collect_friends` makes to the cache is a deduplicated list,
so cache well-formedness is an invariant of the collector. -/
lemma collectFriends_cacheWF (src : PageSource) (st : CollectorState)
    (url : Chars) (mf : Nat) (hwf : CacheWF st) :
    CacheWF (collectFriends src st url mf).2 := by
  cases hn : normalizeUrl url with
  | none => rw [collectFriends_invalid src st url mf hn]; exact hwf
  | some pu =>
    cases hl : lookupAssoc st.friend_cache (extractProfileId pu) with
    | some cached => rw [collectFriends_cached src st url pu mf cached hn hl]; exact hwf
    | none =>
      cases hp : src.friendsPage pu with
      | error => rw [collectFriends_error src st url pu mf hn hl hp]; exact hwf
      | restricted =>
        rw [collectFriends_restricted src st url pu mf hn hl hp]
        intro pr hpr
        simp only at hpr
        rcases mem_updateAssoc _ _ _ _ hpr with h | h
        · subst h; simp
        · exact hwf pr h
      | pages visible =>
        rw [collectFriends_pages src st url pu mf visible hn hl hp]
        intro pr hpr
        simp only at hpr
        rcases mem_updateAssoc _ _ _ _ hpr with h | h
        · subst h
          exact (scrollLoop_invariant visible (extractProfileId pu) mf maxScrolls 0 [] [] _
            (by simp) (by simp) (by simp)).1
        · refine hwf pr ?_
          have hcache := (scrollLoop_preserve visible (extractProfileId pu) mf maxScrolls 0 [] []
            { st with navLog := st.navLog ++ [getFriendsUrl pu] }).2.2.2
          rw [hcache] at h
          exact h

lemma lookupAssoc_updateAssoc {β : Type} (m : List (Chars × β)) (k : Chars) (v : β) :
    lookupAssoc (updateAssoc m k v) k = some v := by
  induction m with
  | nil => simp [updateAssoc, lookupAssoc]
  | cons kv rest ih =>
    rcases kv with ⟨k2, v2⟩
    by_cases h : k2 = k
    · simp [updateAssoc, lookupAssoc, h]
    · simp [updateAssoc, lookupAssoc, h, ih]

/-- C7: a friend list detected as restricted yields the empty list and is
cached under the profile id; a second `collect_friends` call for any URL
with the same canonical id returns the cached empty list with the collector
state (navigation log included) unchanged, so the page source is not
consulted again. -/
theorem c7_restricted_caching (src : PageSource) (st : CollectorState)
    (url url2 nu nu2 : Chars) (mf mf2 : Nat)
    (hn : normalizeUrl url = some nu) (hn2 : normalizeUrl url2 = some nu2)
    (hid : extractProfileId nu2 = extractProfileId nu)
    (hl : lookupAssoc st.friend_cache (extractProfileId nu) = none)
    (hp : src.friendsPage nu = .restricted) :
    (collectFriends src st url mf).1 = some [] ∧
    lookupAssoc ((collectFriends src st url mf).2).friend_cache (extractProfileId nu) =
      some [] ∧
    collectFriends src ((collectFriends src st url mf).2) url2 mf2 =
      (some [], (collectFriends src st url mf).2) := by
  rw [collectFriends_restricted src st url nu mf hn hl hp]
  refine ⟨rfl, ?_, ?_⟩
  · simp only
    exact lookupAssoc_updateAssoc st.friend_cache (extractProfileId nu) []
  · rw [collectFriends_cached src _ url2 nu2 mf2 [] hn2
      (by rw [hid]; simp only; exact lookupAssoc_updateAssoc _ _ _)]
    simp

/-- Witness for C7: an all-restricted source, a fresh collector, the mobile
and desktop URL variants of the same profile. -/
theorem c7_restricted_caching_witness :
    (collectFriends srcRestricted emptyState (chars "https://m.facebook.com/x") 50).1 =
        some [] ∧
    lookupAssoc ((collectFriends srcRestricted emptyState
        (chars "https://m.facebook.com/x") 50).2).friend_cache
        (extractProfileId (chars "https://www.facebook.com/x")) = some [] ∧
    collectFriends srcRestricted ((collectFriends srcRestricted emptyState
        (chars "https://m.facebook.com/x") 50).2) (chars "https://www.facebook.com/x/friends") 10 =
      (some [], (collectFriends srcRestricted emptyState
        (chars "https://m.facebook.com/x") 50).2) :=
  c7_restricted_caching srcRestricted emptyState (chars "https://m.facebook.com/x")
    (chars "https://www.facebook.com/x/friends") (chars "https://www.facebook.com/x")
    (chars "https://www.facebook.com/x") 50 10 (by decide) (by decide) (by decide)
    (by decide) rfl

lemma enqueueFriends_queue_nodup (parent : Chars) (dep : Nat) :
    ∀ (friends : List Friend) (visited : List Chars) (queue : List FrontierEntry)
      (log : List (Chars × FrontierEntry)),
      ((queue.map FrontierEntry.id).Nodup) →
      ((friends.map Friend.profile_id).Nodup) →
      (∀ i ∈ queue.map FrontierEntry.id, i ∉ friends.map Friend.profile_id) →
      (((enqueueFriends parent dep friends visited queue log).1.map FrontierEntry.id).Nodup) := by
  intro friends
  induction friends with
  | nil => intro visited queue log h1 _ _; simpa [enqueueFriends] using h1
  | cons f fs ih =>
    intro visited queue log h1 h2 h3
    by_cases hm : f.profile_id ∈ visited
    · rw [show enqueueFriends parent dep (f :: fs) visited queue log
          = enqueueFriends parent dep fs visited queue log by simp [enqueueFriends, hm]]
      refine ih visited queue log h1 (List.Nodup.of_cons (by simpa using h2)) ?_
      intro i hi
      have := h3 i hi
      simp only [List.map_cons, List.mem_cons] at this
      intro hcon
      exact this (Or.inr hcon)
    · rw [show enqueueFriends parent dep (f :: fs) visited queue log
          = enqueueFriends parent dep fs visited
              (queue ++ [⟨f.profile_id, f.profile_url, dep⟩])
              (log ++ [(parent, ⟨f.profile_id, f.profile_url, dep⟩)]) by
        simp [enqueueFriends, hm]]
      have hf : f.profile_id ∉ queue.map FrontierEntry.id := by
        intro hcon
        exact h3 _ hcon (by simp)
      refine ih visited _ _ ?_ (List.Nodup.of_cons (by simpa using h2)) ?_
      · rw [List.map_append]
        refine List.Nodup.append h1 (by simp) ?_
        intro a ha hb
        simp only [List.map_cons, List.map_nil, List.mem_singleton] at hb
        exact hf (hb ▸ ha)
      · intro i hi
        simp only [List.map_append, List.map_cons, List.map_nil, List.mem_append] at hi
        rcases hi with hi | hi
        · have := h3 i hi
          simp only [List.map_cons, List.mem_cons] at this
          intro hcon
          exact this (Or.inr hcon)
        · simp at hi
          subst hi
          have h2' := h2
          simp only [List.map_cons] at h2'
          exact (List.nodup_cons.mp h2').1

/-- C5 counterexample: enqueueing a discovered friend whose id is already in
the pending queue (and not in the visited set) is not a no-op: the entry is
appended again and the queue then holds the id twice.  Here the queue holds
`d` at depth 1 and a processed profile `b` discovers `d` again at depth 2. -/
theorem c5_enqueue_guard_counterexample :
    (enqueueFriends (chars "b") 2 [mkFriend "d"] []
        [⟨chars "d", chars "https://www.facebook.com/d", 1⟩] []).1 =
      [⟨chars "d", chars "https://www.facebook.com/d", 1⟩,
       ⟨chars "d", chars "https://www.facebook.com/d", 2⟩] ∧
    ¬ (((enqueueFriends (chars "b") 2 [mkFriend "d"] []
        [⟨chars "d", chars "https://www.facebook.com/d", 1⟩] []).1.map
          FrontierEntry.id).Nodup) := by
  decide

/-- C5 amended: the enqueue step skips a discovered friend exactly when its
id is in the visited set; the pending queue is not consulted.  In runs of
this code the final queue nevertheless holds each id at most once, because
only the seed friend batch, already deduplicated inside `collect_friends`,
is ever enqueued before the run aborts. -/
theorem c5_enqueue_guard (parent : Chars) (dep : Nat) (f : Friend) (fs : List Friend)
    (visited : List Chars) (queue : List FrontierEntry)
    (log : List (Chars × FrontierEntry)) (src : PageSource) (st0 : CollectorState)
    (seedUrl nu : Chars) (md mp mf : Nat)
    (hn : normalizeUrl seedUrl = some nu) (hwf : CacheWF st0) :
    (enqueueFriends parent dep (f :: fs) visited queue log =
      if f.profile_id ∈ visited then enqueueFriends parent dep fs visited queue log
      else
        enqueueFriends parent dep fs visited
          (queue ++ [⟨f.profile_id, f.profile_url, dep⟩])
          (log ++ [(parent, ⟨f.profile_id, f.profile_url, dep⟩)])) ∧
    (((traverseNetwork src st0 seedUrl md mp mf).2.st.queue.map FrontierEntry.id).Nodup) := by
  constructor
  · rfl
  · rcases Nat.eq_zero_or_pos mp with hmp | hmp
    · subst hmp
      simp [traverseNetwork_budget_zero src st0 seedUrl md mf nu hn, initRunState, seedEntry]
    · rw [traverseNetwork_char src st0 seedUrl md mp mf nu hn hmp]
      unfold seedRunResult
      cases hx : src.extractProfile nu with
      | none => simp [seedCollectState]
      | some prof =>
        by_cases hmd : md = 0
        · simp [hmd, seedCollectState]
        · cases hc : collectFriends src (seedCollectState st0 (extractProfileId nu)) nu mf with
          | mk res st2 =>
            have hq2 : st2.queue = [] := by
              have h1 := (collectFriends_preserve src
                (seedCollectState st0 (extractProfileId nu)) nu mf).1
              rw [hc] at h1
              simpa [seedCollectState] using h1
            cases res with
            | none => simp [hmd, hq2]
            | some friends =>
              have hwf2 : CacheWF (seedCollectState st0 (extractProfileId nu)) := by
                intro pr hpr
                exact hwf pr hpr
              have hnd : (friends.map Friend.profile_id).Nodup :=
                (collectFriends_result_spec src (seedCollectState st0 (extractProfileId nu))
                  nu mf friends hwf2 (by rw [hc])).1
              simp only [hmd, if_neg hmd]
              rw [hq2]
              exact enqueueFriends_queue_nodup (extractProfileId nu) 1 friends
                st2.visited_profiles [] [] (by simp) hnd (by simp)

/-- Witness for C5 at a concrete input: the scenario run, whose final queue
holds `b` and `c` once each. -/
theorem c5_enqueue_guard_witness :
    (enqueueFriends (chars "a") 1 [mkFriend "b"] [] [] [] =
      if (mkFriend "b").profile_id ∈ ([] : List Chars) then enqueueFriends (chars "a") 1 [] [] [] []
      else
        enqueueFriends (chars "a") 1 [] []
          ([] ++ [⟨(mkFriend "b").profile_id, (mkFriend "b").profile_url, 1⟩])
          ([] ++ [(chars "a", ⟨(mkFriend "b").profile_id, (mkFriend "b").profile_url, 1⟩)])) ∧
    (((traverseNetwork srcScenario emptyState (chars "https://www.facebook.com/a")
        1 10 50).2.st.queue.map FrontierEntry.id).Nodup) :=
  c5_enqueue_guard (chars "a") 1 (mkFriend "b") [] [] [] [] srcScenario emptyState
    (chars "https://www.facebook.com/a") (chars "https://www.facebook.com/a") 1 10 50
    (by decide) (fun pr hpr => by simp [emptyState] at hpr)

/-- C6: `collect_friends` cannot loop forever on a page that never finishes
paginating: the scroll loop is capped at `max_scrolls = 20`.  On the stub
source that shows the same three friends on every load and never signals
completion, the call (at the default `max_friends = 100`) returns exactly
those three friends, deduplicated; and in general every successful
`collect_friends` result is free of duplicate ids and no longer than
`max_friends`. -/
theorem c6_stall_termination (src : PageSource) (st : CollectorState) (url : Chars)
    (mf : Nat) (l : List Friend) (hwf : CacheWF st)
    (hc : (collectFriends src st url mf).1 = some l) :
    ((l.map Friend.profile_id).Nodup ∧ l.length ≤ mf) ∧
    (collectFriends srcStall emptyState (chars "https://www.facebook.com/a") 100).1 =
      some [mkFriend "b1", mkFriend "b2", mkFriend "b3"] :=
  ⟨collectFriends_result_spec src st url mf l hwf hc, by decide⟩

/-- Witness for C6: the stall stub itself. -/
theorem c6_stall_termination_witness :
    ((([mkFriend "b1", mkFriend "b2", mkFriend "b3"].map Friend.profile_id).Nodup ∧
      ([mkFriend "b1", mkFriend "b2", mkFriend "b3"] : List Friend).length ≤ 100) ∧
    (collectFriends srcStall emptyState (chars "https://www.facebook.com/a") 100).1 =
      some [mkFriend "b1", mkFriend "b2", mkFriend "b3"]) :=
  c6_stall_termination srcStall emptyState (chars "https://www.facebook.com/a") 100
    [mkFriend "b1", mkFriend "b2", mkFriend "b3"]
    (fun pr hpr => by simp [emptyState] at hpr) (by decide)

/-! ## String-level lemmas for the URL functions -/

lemma breakAtFirst_of_not_mem (c : Char) (l : Chars) (h : c ∉ l) :
    breakAtFirst c l = (l, none) := by
  induction l with
  | nil => rfl
  | cons a as ih =>
    have ha : a ≠ c := fun hc => h (hc ▸ List.mem_cons_self a as)
    simp only [breakAtFirst, if_neg ha, ih (fun hc => h (List.mem_cons_of_mem a hc))]

lemma breakAtFirst_append (c : Char) (l1 l2 : Chars) (h : c ∉ l1) :
    breakAtFirst c (l1 ++ c :: l2) = (l1, some l2) := by
  induction l1 with
  | nil => simp [breakAtFirst]
  | cons a as ih =>
    have ha : a ≠ c := fun hc => h (hc ▸ List.mem_cons_self a as)
    have ih2 := ih fun hc => h (List.mem_cons_of_mem a hc)
    simp only [List.cons_append, breakAtFirst, if_neg ha]
    rw [show as.append (c :: l2) = as ++ c :: l2 from rfl, ih2]

lemma breakAtFirst_fst_not_mem (c : Char) (l : Chars) : c ∉ (breakAtFirst c l).1 := by
  induction l with
  | nil => simp [breakAtFirst]
  | cons a as ih =>
    by_cases ha : a = c
    · simp [breakAtFirst, ha]
    · simp only [breakAtFirst, if_neg ha]
      intro h
      rcases List.mem_cons.mp h with h | h
      · exact ha h.symm
      · exact ih h

lemma breakAtFirst_fst_mem (c : Char) (l : Chars) (a : Char)
    (h : a ∈ (breakAtFirst c l).1) : a ∈ l := by
  induction l with
  | nil => simp [breakAtFirst] at h
  | cons b as ih =>
    by_cases hb : b = c
    · simp [breakAtFirst, hb] at h
    · simp only [breakAtFirst, if_neg hb] at h
      rcases List.mem_cons.mp h with h | h
      · exact h ▸ List.mem_cons_self b as
      · exact List.mem_cons_of_mem b (ih h)

lemma breakAtFirst_rest_mem (c : Char) (l : Chars) (r : Chars) (a : Char)
    (hr : (breakAtFirst c l).2 = some r) (h : a ∈ r) : a ∈ l := by
  induction l with
  | nil => simp [breakAtFirst] at hr
  | cons b as ih =>
    by_cases hb : b = c
    · simp only [breakAtFirst, if_pos hb] at hr
      have hr2 := Option.some.inj hr
      subst hr2
      exact List.mem_cons_of_mem b h
    · simp only [breakAtFirst, if_neg hb] at hr
      exact List.mem_cons_of_mem b (ih hr)

lemma breakAtFirst_fst_decomp (c : Char) (l : Chars) :
    ∃ d, (breakAtFirst c l).1 ++ d = l := by
  induction l with
  | nil => exact ⟨[], rfl⟩
  | cons b as ih =>
    by_cases hb : b = c
    · exact ⟨b :: as, by simp [breakAtFirst, hb]⟩
    · obtain ⟨d, hd⟩ := ih
      exact ⟨d, by simp only [breakAtFirst, if_neg hb, List.cons_append, hd]⟩

lemma breakUntilAny_append (stops : List Char) (l1 : Chars) (c : Char) (l2 : Chars)
    (h : ∀ a ∈ l1, a ∉ stops) (hc : c ∈ stops) :
    breakUntilAny stops (l1 ++ c :: l2) = (l1, c :: l2) := by
  induction l1 with
  | nil => simp [breakUntilAny, hc]
  | cons a as ih =>
    have ha : a ∉ stops := h a (List.mem_cons_self a as)
    have ih2 := ih fun b hb => h b (List.mem_cons_of_mem a hb)
    simp only [List.cons_append, breakUntilAny, if_neg ha]
    rw [show as.append (c :: l2) = as ++ c :: l2 from rfl, ih2]

lemma breakUntilAny_decomp (stops : List Char) (l : Chars) :
    (breakUntilAny stops l).1 ++ (breakUntilAny stops l).2 = l := by
  induction l with
  | nil => rfl
  | cons a as ih =>
    by_cases ha : a ∈ stops
    · simp [breakUntilAny, ha]
    · simp only [breakUntilAny, if_neg ha, List.cons_append, ih]

lemma dropWhile_eq_self_of (p : Char → Bool) (l : Chars) (h : ∀ a ∈ l, ¬ p a) :
    l.dropWhile p = l := by
  cases l with
  | nil => rfl
  | cons a as =>
    rw [List.dropWhile_cons_of_neg]
    simpa using h a (List.mem_cons_self a as)

lemma stripChar_cons_no_occurrence (c : Char) (p : Chars) (h : c ∉ p) :
    stripChar c (c :: p) = p := by
  unfold stripChar
  rw [List.dropWhile_cons_of_pos (by simp)]
  rw [dropWhile_eq_self_of _ p fun a ha => by simp; exact fun hc => h (hc ▸ ha)]
  rw [dropWhile_eq_self_of _ p.reverse fun a ha => by
    simp; exact fun hc => h (hc ▸ List.mem_reverse.mp ha)]
  exact List.reverse_reverse p

lemma stripChar_mem (c : Char) (l : Chars) (a : Char) (h : a ∈ stripChar c l) : a ∈ l := by
  unfold stripChar at h
  rw [List.mem_reverse] at h
  have h2 := (List.dropWhile_sublist _).mem h
  rw [List.mem_reverse] at h2
  exact (List.dropWhile_sublist _).mem h2

/-- The strip of `'/' :: (u ++ '/' :: rest)` keeps the first segment `u`
intact: the result is `u` alone or `u` followed by a slash, and in both
cases a prefix of `u ++ '/' :: rest`. -/
lemma stripChar_first_segment (u rest : Chars) (hu : '/' ∉ u) (hne : u ≠ []) :
    (stripChar '/' ('/' :: (u ++ '/' :: rest)) = u ∨
      ∃ r2, stripChar '/' ('/' :: (u ++ '/' :: rest)) = u ++ '/' :: r2) ∧
    ∃ d, stripChar '/' ('/' :: (u ++ '/' :: rest)) ++ d = u ++ '/' :: rest := by
  have hdrop : ('/' :: (u ++ '/' :: rest)).dropWhile (· = '/') = u ++ '/' :: rest := by
    rw [List.dropWhile_cons_of_pos (by simp)]
    cases hu2 : u with
    | nil => exact absurd hu2 hne
    | cons b bs =>
      rw [List.cons_append, List.dropWhile_cons_of_neg]
      simp only [decide_eq_true_eq]
      intro hb
      exact hu (hb ▸ (hu2 ▸ List.mem_cons_self b bs))
  have hurev : (List.reverse u).dropWhile (· = '/') = List.reverse u :=
    dropWhile_eq_self_of _ u.reverse fun a ha => by
      simp
      intro hc
      exact hu (hc ▸ List.mem_reverse.mp ha)
  unfold stripChar
  rw [hdrop, List.reverse_append, List.reverse_cons, List.dropWhile_append]
  by_cases hre : ((List.reverse rest).dropWhile (· = '/')).isEmpty = true
  · have h1 : List.dropWhile (· = '/') (List.reverse rest ++ ['/']) = [] := by
      rw [List.dropWhile_append]
      simp only [hre, if_true]
      rw [List.dropWhile_cons_of_pos (by simp)]
      rfl
    rw [h1]
    simp only [List.isEmpty_nil, if_true]
    rw [hurev, List.reverse_reverse]
    exact ⟨Or.inl rfl, ⟨'/' :: rest, rfl⟩⟩
  · have h1 : List.dropWhile (· = '/') (List.reverse rest ++ ['/'])
        = List.dropWhile (· = '/') (List.reverse rest) ++ ['/'] := by
      rw [List.dropWhile_append, if_neg hre]
    rw [h1]
    have h2 : ¬ ((List.dropWhile (· = '/') (List.reverse rest) ++ ['/']).isEmpty = true) := by
      simp
    simp only [if_neg h2]
    have hE : ((List.dropWhile (· = '/') (List.reverse rest) ++ ['/']) ++ List.reverse u).reverse
        = u ++ '/' :: (List.dropWhile (· = '/') (List.reverse rest)).reverse := by
      rw [List.reverse_append, List.reverse_append, List.reverse_reverse]
      simp
    have hr : (List.dropWhile (· = '/') (List.reverse rest)).reverse ++
        (List.takeWhile (· = '/') (List.reverse rest)).reverse = rest := by
      rw [← List.reverse_append, List.takeWhile_append_dropWhile, List.reverse_reverse]
    refine ⟨Or.inr ⟨(List.dropWhile (· = '/') (List.reverse rest)).reverse, hE⟩,
      ⟨(List.takeWhile (· = '/') (List.reverse rest)).reverse, ?_⟩⟩
    rw [hE, List.append_assoc, List.cons_append, hr]


lemma urlparse_https_noquery (dom p : Chars)
    (hd_sl : '/' ∉ dom) (hd_qm : '?' ∉ dom) (hd_hash : '#' ∉ dom)
    (hp_qm : '?' ∉ p) (hp_hash : '#' ∉ p) :
    urlparse (chars "https://" ++ (dom ++ '/' :: p)) =
      ⟨chars "https", dom, '/' :: p, [], []⟩ := by
  have hhash : '#' ∉ chars "https://" ++ (dom ++ '/' :: p) := by
    intro h
    rcases List.mem_append.mp h with h | h
    · exact absurd h (by decide)
    · rcases List.mem_append.mp h with h | h
      · exact hd_hash h
      · rcases List.mem_cons.mp h with h | h
        · exact absurd h (by decide)
        · exact hp_hash h
  have hcolon : breakAtFirst ':' (chars "https://" ++ (dom ++ '/' :: p))
      = (chars "https", some (chars "//" ++ (dom ++ '/' :: p))) := by
    rw [show chars "https://" ++ (dom ++ '/' :: p)
        = chars "https" ++ ':' :: (chars "//" ++ (dom ++ '/' :: p)) from rfl]
    exact breakAtFirst_append ':' _ _ (by decide)
  have hnet : breakUntilAny ['/', '?'] (dom ++ '/' :: p) = (dom, '/' :: p) := by
    refine breakUntilAny_append ['/', '?'] dom '/' p ?_ (by simp)
    intro a ha
    simp only [List.mem_cons, List.not_mem_nil, or_false]
    rintro (h | h)
    · exact hd_sl (h ▸ ha)
    · exact hd_qm (h ▸ ha)
  have hq : breakAtFirst '?' ('/' :: p) = ('/' :: p, none) := by
    refine breakAtFirst_of_not_mem '?' _ ?_
    intro h
    rcases List.mem_cons.mp h with h | h
    · exact absurd h (by decide)
    · exact hp_qm h
  simp only [urlparse, breakAtFirst_of_not_mem '#' _ hhash, hcolon, Option.getD_none,
    Option.isSome_some, hq, show isSchemeChars (chars "https") = true from by decide,
    if_true]
  rw [show (chars "//" ++ (dom ++ '/' :: p)).take 2 = ['/', '/'] from rfl]
  rw [show (chars "//" ++ (dom ++ '/' :: p)).drop 2 = dom ++ '/' :: p from rfl]
  simp [hnet, hq]

lemma urlparse_https_query (dom pth q : Chars)
    (hd_sl : '/' ∉ dom) (hd_qm : '?' ∉ dom) (hd_hash : '#' ∉ dom)
    (hpth_qm : '?' ∉ pth) (hpth_hash : '#' ∉ pth) (hq_hash : '#' ∉ q) :
    urlparse (chars "https://" ++ (dom ++ '/' :: (pth ++ '?' :: q))) =
      ⟨chars "https", dom, '/' :: pth, q, []⟩ := by
  have hhash : '#' ∉ chars "https://" ++ (dom ++ '/' :: (pth ++ '?' :: q)) := by
    intro h
    rcases List.mem_append.mp h with h | h
    · exact absurd h (by decide)
    · rcases List.mem_append.mp h with h | h
      · exact hd_hash h
      · rcases List.mem_cons.mp h with h | h
        · exact absurd h (by decide)
        · rcases List.mem_append.mp h with h | h
          · exact hpth_hash h
          · rcases List.mem_cons.mp h with h | h
            · exact absurd h (by decide)
            · exact hq_hash h
  have hcolon : breakAtFirst ':' (chars "https://" ++ (dom ++ '/' :: (pth ++ '?' :: q)))
      = (chars "https", some (chars "//" ++ (dom ++ '/' :: (pth ++ '?' :: q)))) := by
    rw [show chars "https://" ++ (dom ++ '/' :: (pth ++ '?' :: q))
        = chars "https" ++ ':' :: (chars "//" ++ (dom ++ '/' :: (pth ++ '?' :: q))) from rfl]
    exact breakAtFirst_append ':' _ _ (by decide)
  have hnet : breakUntilAny ['/', '?'] (dom ++ '/' :: (pth ++ '?' :: q))
      = (dom, '/' :: (pth ++ '?' :: q)) := by
    refine breakUntilAny_append ['/', '?'] dom '/' (pth ++ '?' :: q) ?_ (by simp)
    intro a ha
    simp only [List.mem_cons, List.not_mem_nil, or_false]
    rintro (h | h)
    · exact hd_sl (h ▸ ha)
    · exact hd_qm (h ▸ ha)
  have hq : breakAtFirst '?' ('/' :: (pth ++ '?' :: q)) = ('/' :: pth, some q) := by
    rw [show ('/' :: (pth ++ '?' :: q) : Chars) = ('/' :: pth) ++ '?' :: q from rfl]
    refine breakAtFirst_append '?' _ _ ?_
    intro h
    rcases List.mem_cons.mp h with h | h
    · exact absurd h (by decide)
    · exact hpth_qm h
  simp only [urlparse, breakAtFirst_of_not_mem '#' _ hhash, hcolon, Option.getD_none,
    Option.isSome_some, hq, show isSchemeChars (chars "https") = true from by decide,
    if_true]
  rw [show (chars "//" ++ (dom ++ '/' :: (pth ++ '?' :: q))).take 2 = ['/', '/'] from rfl]
  rw [show (chars "//" ++ (dom ++ '/' :: (pth ++ '?' :: q))).drop 2
      = dom ++ '/' :: (pth ++ '?' :: q) from rfl]
  simp [hnet, hq]

lemma isPrefixOf_append_right (pat l l2 : Chars) (h : pat.isPrefixOf l = true) :
    pat.isPrefixOf (l ++ l2) = true := by
  induction pat generalizing l with
  | nil => simp [List.isPrefixOf]
  | cons p ps ih =>
    cases l with
    | nil => simp [List.isPrefixOf] at h
    | cons b bs =>
      simp only [List.isPrefixOf, Bool.and_eq_true, beq_iff_eq] at h
      simp only [List.cons_append, List.isPrefixOf, Bool.and_eq_true, beq_iff_eq]
      exact ⟨h.1, ih bs h.2⟩

lemma isSubstr_nil_pat (l : Chars) : isSubstr [] l = true := by
  cases l <;> simp [isSubstr, List.isPrefixOf]

lemma isSubstr_append_right (pat l l2 : Chars) (h : isSubstr pat l = true) :
    isSubstr pat (l ++ l2) = true := by
  induction l with
  | nil =>
    simp only [isSubstr, List.isEmpty_iff] at h
    subst h
    exact isSubstr_nil_pat l2
  | cons a as ih =>
    simp only [isSubstr, Bool.or_eq_true] at h
    simp only [List.cons_append, isSubstr, Bool.or_eq_true]
    rcases h with h | h
    · exact Or.inl (isPrefixOf_append_right pat (a :: as) l2 h)
    · exact Or.inr (ih h)

lemma isSubstr_false_of_prefix_part (pat x l d : Chars) (hx : isSubstr pat x = false)
    (hld : l ++ d = x) : isSubstr pat l = false := by
  by_contra h
  rw [Bool.not_eq_false] at h
  rw [← hld, isSubstr_append_right pat l d h] at hx
  exact Bool.noConfusion hx

lemma isSubstr_profilephp_cons_slash (u : Chars) :
    isSubstr (chars "profile.php") ('/' :: u) = isSubstr (chars "profile.php") u := by
  simp only [isSubstr]
  rw [show (chars "profile.php").isPrefixOf ('/' :: u) = false from by
    cases u <;> simp [chars, List.isPrefixOf]]
  simp

lemma validNetlocs_chars (dom : Chars) (hdom : dom ∈ validNetlocs) :
    '/' ∉ dom ∧ '?' ∉ dom ∧ '#' ∉ dom := by
  simp only [validNetlocs, List.mem_cons, List.not_mem_nil, or_false] at hdom
  rcases hdom with rfl | rfl | rfl | rfl <;> exact ⟨by decide, by decide, by decide⟩

/-- Normalization of a username-path reference: the canonical URL is the
desktop host followed by the username. -/
lemma normalize_userUrl (dom u : Chars) (hdom : dom ∈ validNetlocs)
    (hu_sl : '/' ∉ u) (hu_qm : '?' ∉ u) (hu_hash : '#' ∉ u)
    (hnp : isSubstr (chars "profile.php") u = false) :
    normalizeUrl (mkUserUrl dom u) = some (chars "https://www.facebook.com/" ++ u) := by
  obtain ⟨hd1, hd2, hd3⟩ := validNetlocs_chars dom hdom
  have hp := urlparse_https_noquery dom u hd1 hd2 hd3 hu_qm hu_hash
  rw [show mkUserUrl dom u = chars "https://" ++ (dom ++ '/' :: u) from by
    simp [mkUserUrl, List.append_assoc]]
  simp only [normalizeUrl, hp, if_pos hdom]
  rw [stripChar_cons_no_occurrence '/' u hu_sl]
  rw [hnp]
  simp only [Bool.false_eq_true, if_false, if_neg hu_sl]
  rfl

/-- Id extraction from a canonical username URL recovers the username. -/
lemma extract_userOutput (u : Chars)
    (hu_sl : '/' ∉ u) (hu_qm : '?' ∉ u) (hu_hash : '#' ∉ u)
    (hnp : isSubstr (chars "profile.php") u = false) :
    extractProfileId (chars "https://www.facebook.com/" ++ u) = u := by
  have hp := urlparse_https_noquery (chars "www.facebook.com") u (by decide) (by decide)
    (by decide) hu_qm hu_hash
  rw [show (chars "https://www.facebook.com/" ++ u : Chars)
      = chars "https://" ++ (chars "www.facebook.com" ++ '/' :: u) from rfl]
  simp only [extractProfileId, hp]
  rw [isSubstr_profilephp_cons_slash u, hnp]
  simp only [Bool.false_eq_true, if_false]
  rw [stripChar_cons_no_occurrence '/' u hu_sl]
  simp [hu_sl]

/-- Normalization of a username-path reference with trailing path segments:
everything after the first segment is stripped. -/
lemma normalize_userUrlSeg (dom u rest : Chars) (hdom : dom ∈ validNetlocs)
    (hu_sl : '/' ∉ u) (hu_qm : '?' ∉ u) (hu_hash : '#' ∉ u) (hne : u ≠ [])
    (hr_qm : '?' ∉ rest) (hr_hash : '#' ∉ rest)
    (hnp : isSubstr (chars "profile.php") (u ++ '/' :: rest) = false) :
    normalizeUrl (mkUserUrlSeg dom u rest) = some (chars "https://www.facebook.com/" ++ u) := by
  obtain ⟨hd1, hd2, hd3⟩ := validNetlocs_chars dom hdom
  have hp_qm : '?' ∉ u ++ '/' :: rest := by
    intro h
    rcases List.mem_append.mp h with h | h
    · exact hu_qm h
    · rcases List.mem_cons.mp h with h | h
      · exact absurd h (by decide)
      · exact hr_qm h
  have hp_hash : '#' ∉ u ++ '/' :: rest := by
    intro h
    rcases List.mem_append.mp h with h | h
    · exact hu_hash h
    · rcases List.mem_cons.mp h with h | h
      · exact absurd h (by decide)
      · exact hr_hash h
  have hp := urlparse_https_noquery dom (u ++ '/' :: rest) hd1 hd2 hd3 hp_qm hp_hash
  rw [show mkUserUrlSeg dom u rest = chars "https://" ++ (dom ++ '/' :: (u ++ '/' :: rest)) from by
    simp [mkUserUrlSeg, List.append_assoc]]
  simp only [normalizeUrl, hp, if_pos hdom]
  obtain ⟨hseg, d, hd⟩ := stripChar_first_segment u rest hu_sl hne
  rw [isSubstr_false_of_prefix_part (chars "profile.php") (u ++ '/' :: rest) _ d hnp hd]
  simp only [Bool.false_eq_true, if_false]
  rcases hseg with he | ⟨r2, he⟩
  · rw [he, if_neg hu_sl]
    rfl
  · rw [he, if_pos (by simp : '/' ∈ u ++ '/' :: r2)]
    rw [breakAtFirst_append '/' u r2 hu_sl]
    rfl

/-- Normalization of a numeric-id query-form reference: the path is kept and
the entire query string is preserved. -/
lemma normalize_idUrl (dom q : Chars) (hdom : dom ∈ validNetlocs) (hq_hash : '#' ∉ q) :
    normalizeUrl (mkIdUrl dom q) =
      some (chars "https://www.facebook.com/profile.php?" ++ q) := by
  obtain ⟨hd1, hd2, hd3⟩ := validNetlocs_chars dom hdom
  have hp := urlparse_https_query dom (chars "profile.php") q hd1 hd2 hd3
    (by decide) (by decide) hq_hash
  rw [show mkIdUrl dom q
      = chars "https://" ++ (dom ++ '/' :: (chars "profile.php" ++ '?' :: q)) from by
    simp only [mkIdUrl, List.append_assoc]
    rfl]
  simp only [normalizeUrl, hp, if_pos hdom]
  rw [stripChar_cons_no_occurrence '/' (chars "profile.php") (by decide)]
  rw [show isSubstr (chars "profile.php") (chars "profile.php") = true from by decide]
  simp only [if_true]
  rfl

/-- Id extraction from a canonical numeric-id URL returns the first `id`
query parameter value. -/
lemma extract_idOutput (q n : Chars) (vs : List Chars) (hq_hash : '#' ∉ q)
    (hid : lookupAssoc (parseQs q) (chars "id") = some (n :: vs)) :
    extractProfileId (chars "https://www.facebook.com/profile.php?" ++ q) = n := by
  have hp := urlparse_https_query (chars "www.facebook.com") (chars "profile.php") q
    (by decide) (by decide) (by decide) (by decide) (by decide) hq_hash
  rw [show (chars "https://www.facebook.com/profile.php?" ++ q : Chars)
      = chars "https://" ++ (chars "www.facebook.com" ++ '/' ::
          (chars "profile.php" ++ '?' :: q)) from rfl]
  simp only [extractProfileId, hp]
  rw [isSubstr_profilephp_cons_slash (chars "profile.php")]
  rw [show isSubstr (chars "profile.php") (chars "profile.php") = true from by decide]
  simp [hid]

lemma urlparse_path_no_qmark (url : Chars) : '?' ∉ (urlparse url).path := by
  simp only [urlparse]
  exact breakAtFirst_fst_not_mem '?' _

lemma urlparse_afterScheme_mem (url : Chars) (a : Char)
    (h : a ∈ (match (breakAtFirst ':' (breakAtFirst '#' url).1).2 with
      | some after =>
          if isSchemeChars (breakAtFirst ':' (breakAtFirst '#' url).1).1 = true then after
          else (breakAtFirst '#' url).1
      | none => (breakAtFirst '#' url).1)) :
    a ∈ (breakAtFirst '#' url).1 := by
  revert h
  cases hsp : (breakAtFirst ':' (breakAtFirst '#' url).1).2 with
  | none => exact fun h => h
  | some after =>
    by_cases hsch : isSchemeChars (breakAtFirst ':' (breakAtFirst '#' url).1).1 = true
    · intro h
      have h2 : a ∈ (if isSchemeChars (breakAtFirst ':' (breakAtFirst '#' url).1).1 = true
          then after else (breakAtFirst '#' url).1) := h
      rw [if_pos hsch] at h2
      exact breakAtFirst_rest_mem ':' _ after a hsp h2
    · intro h
      have h2 : a ∈ (if isSchemeChars (breakAtFirst ':' (breakAtFirst '#' url).1).1 = true
          then after else (breakAtFirst '#' url).1) := h
      rw [if_neg hsch] at h2
      exact h2

lemma urlparse_afterNetloc_mem (A : Chars) (a : Char)
    (h : a ∈ (breakAtFirst '?' (if List.take 2 A = ['/', '/'] then
        (breakUntilAny ['/', '?'] (List.drop 2 A)).2 else A)).1) : a ∈ A := by
  have h1 := breakAtFirst_fst_mem '?' _ _ h
  by_cases ht : List.take 2 A = ['/', '/']
  · rw [if_pos ht] at h1
    have h2 : a ∈ (breakUntilAny ['/', '?'] (List.drop 2 A)).1 ++
        (breakUntilAny ['/', '?'] (List.drop 2 A)).2 := List.mem_append.mpr (Or.inr h1)
    rw [breakUntilAny_decomp] at h2
    exact List.mem_of_mem_drop h2
  · rw [if_neg ht] at h1
    exact h1

lemma urlparse_path_no_hash (url : Chars) : '#' ∉ (urlparse url).path := by
  intro h
  simp only [urlparse] at h
  exact breakAtFirst_fst_not_mem '#' url
    (urlparse_afterScheme_mem url '#' (urlparse_afterNetloc_mem _ '#' h))

/-- Characterization of normalization outside the `profile.php` branch: the
canonical URL is the desktop host followed by the first path segment, and
extraction recovers exactly that segment. -/
lemma normalize_nonphp_char (url nu : Chars) (hn : normalizeUrl url = some nu)
    (hb : isSubstr (chars "profile.php") (stripChar '/' (urlparse url).path) = false) :
    nu = chars "https://www.facebook.com/" ++
        (breakAtFirst '/' (stripChar '/' (urlparse url).path)).1 ∧
    extractProfileId nu = (breakAtFirst '/' (stripChar '/' (urlparse url).path)).1 := by
  have hnu : nu = chars "https://www.facebook.com/" ++
      (breakAtFirst '/' (stripChar '/' (urlparse url).path)).1 := by
    unfold normalizeUrl at hn
    by_cases hdm : (urlparse url).netloc ∈ validNetlocs
    · rw [if_pos hdm] at hn
      simp only [hb, Bool.false_eq_true, if_false] at hn
      by_cases hsl : '/' ∈ stripChar '/' (urlparse url).path
      · rw [if_pos hsl] at hn
        have := Option.some.inj hn
        rw [← this]
        rfl
      · rw [if_neg hsl] at hn
        have := Option.some.inj hn
        rw [← this, breakAtFirst_of_not_mem '/' _ hsl]
        rfl
    · rw [if_neg hdm] at hn
      exact absurd hn (by simp)
  refine ⟨hnu, ?_⟩
  have hsl : '/' ∉ (breakAtFirst '/' (stripChar '/' (urlparse url).path)).1 :=
    breakAtFirst_fst_not_mem '/' _
  have hqm : '?' ∉ (breakAtFirst '/' (stripChar '/' (urlparse url).path)).1 := fun h =>
    urlparse_path_no_qmark url (stripChar_mem '/' _ '?' (breakAtFirst_fst_mem '/' _ '?' h))
  have hhash : '#' ∉ (breakAtFirst '/' (stripChar '/' (urlparse url).path)).1 := fun h =>
    urlparse_path_no_hash url (stripChar_mem '/' _ '#' (breakAtFirst_fst_mem '/' _ '#' h))
  obtain ⟨d, hd⟩ := breakAtFirst_fst_decomp '/' (stripChar '/' (urlparse url).path)
  have hsub := isSubstr_false_of_prefix_part (chars "profile.php") _ _ d hb hd
  rw [hnu]
  exact extract_userOutput _ hsl hqm hhash hsub

/-- C9 counterexample: two numeric-id URLs that differ only in a parameter
other than `id` share a canonical id but not a canonical URL, because
normalization preserves the whole query string. -/
theorem c9_canonical_url_counterexample :
    canonicalId (chars "https://www.facebook.com/profile.php?id=4") = some (chars "4") ∧
    canonicalId (chars "https://www.facebook.com/profile.php?id=4&ref=bookmarks") =
      some (chars "4") ∧
    normalizeUrl (chars "https://www.facebook.com/profile.php?id=4") ≠
      normalizeUrl (chars "https://www.facebook.com/profile.php?id=4&ref=bookmarks") := by
  decide

/-- C9 amended: outside the `profile.php` query form, equal canonical ids do
imply byte-identical canonical URLs: the canonical URL of a username-form
reference is a function of its extracted id.  (For the query form,
normalization preserves the entire query string, so equal ids do not imply
equal canonical URLs; see the counterexample.) -/
theorem c9_same_id_same_url (url1 url2 nu1 nu2 : Chars)
    (h1 : normalizeUrl url1 = some nu1) (h2 : normalizeUrl url2 = some nu2)
    (hb1 : isSubstr (chars "profile.php") (stripChar '/' (urlparse url1).path) = false)
    (hb2 : isSubstr (chars "profile.php") (stripChar '/' (urlparse url2).path) = false)
    (hid : extractProfileId nu1 = extractProfileId nu2) :
    nu1 = nu2 := by
  obtain ⟨e1, x1⟩ := normalize_nonphp_char url1 nu1 h1 hb1
  obtain ⟨e2, x2⟩ := normalize_nonphp_char url2 nu2 h2 hb2
  rw [e1, e2]
  rw [← x1, ← x2, hid]

/-- Witness for C9: the mobile variant with a trailing segment and the bare
domain variant of the same username normalize to the identical canonical
URL. -/
theorem c9_same_id_same_url_witness :
    (chars "https://www.facebook.com/zuck" : Chars) = chars "https://www.facebook.com/zuck" :=
  c9_same_id_same_url (chars "https://m.facebook.com/zuck/friends")
    (chars "https://facebook.com/zuck") (chars "https://www.facebook.com/zuck")
    (chars "https://www.facebook.com/zuck") (by decide) (by decide) (by decide) (by decide)
    (by decide)

/-- C8 counterexample: the username-path form and the numeric-id query form
are both valid reference forms of one profile (a real profile has both a
username and a numeric id), yet they yield different canonical ids: the code
has no mapping between usernames and numeric ids. -/
theorem c8_normalization_counterexample :
    (chars "https://www.facebook.com/zuck") ∈
      profileReferenceForms (chars "zuck") (chars "4") ∧
    (chars "https://m.facebook.com/profile.php?id=4") ∈
      profileReferenceForms (chars "zuck") (chars "4") ∧
    canonicalId (chars "https://www.facebook.com/zuck") = some (chars "zuck") ∧
    canonicalId (chars "https://m.facebook.com/profile.php?id=4") = some (chars "4") ∧
    canonicalId (chars "https://www.facebook.com/zuck") ≠
      canonicalId (chars "https://m.facebook.com/profile.php?id=4") := by
  decide

/-- C8 amended: within each addressing mode the canonical id is stable
across all URL variants: every domain variant of a username-path reference,
with or without trailing path segments, yields the username as canonical id,
and every domain variant of a numeric-id query form, whatever other query
parameters it carries, yields the `id` value. -/
theorem c8_normalization_stable (dom1 dom2 : Chars) (u rest q1 q2 n : Chars)
    (vs1 vs2 : List Chars)
    (hdom1 : dom1 ∈ validNetlocs) (hdom2 : dom2 ∈ validNetlocs)
    (hu_sl : '/' ∉ u) (hu_qm : '?' ∉ u) (hu_hash : '#' ∉ u) (hne : u ≠ [])
    (hr_qm : '?' ∉ rest) (hr_hash : '#' ∉ rest)
    (hnp : isSubstr (chars "profile.php") (u ++ '/' :: rest) = false)
    (hq1 : '#' ∉ q1) (hq2 : '#' ∉ q2)
    (hid1 : lookupAssoc (parseQs q1) (chars "id") = some (n :: vs1))
    (hid2 : lookupAssoc (parseQs q2) (chars "id") = some (n :: vs2)) :
    canonicalId (mkUserUrl dom1 u) = some u ∧
    canonicalId (mkUserUrlSeg dom2 u rest) = some u ∧
    canonicalId (mkIdUrl dom1 q1) = some n ∧
    canonicalId (mkIdUrl dom2 q2) = some n := by
  have hnp_u : isSubstr (chars "profile.php") u = false :=
    isSubstr_false_of_prefix_part _ (u ++ '/' :: rest) u ('/' :: rest) hnp rfl
  refine ⟨?_, ?_, ?_, ?_⟩
  · unfold canonicalId
    rw [normalize_userUrl dom1 u hdom1 hu_sl hu_qm hu_hash hnp_u]
    simp [extract_userOutput u hu_sl hu_qm hu_hash hnp_u]
  · unfold canonicalId
    rw [normalize_userUrlSeg dom2 u rest hdom2 hu_sl hu_qm hu_hash hne hr_qm hr_hash hnp]
    simp [extract_userOutput u hu_sl hu_qm hu_hash hnp_u]
  · unfold canonicalId
    rw [normalize_idUrl dom1 q1 hdom1 hq1]
    simp [extract_idOutput q1 n vs1 hq1 hid1]
  · unfold canonicalId
    rw [normalize_idUrl dom2 q2 hdom2 hq2]
    simp [extract_idOutput q2 n vs2 hq2 hid2]

/-- Witness for C8: username `zuck` with trailing segment `about` on two
domains, and id `4` with and without an extra `ref` parameter. -/
theorem c8_normalization_stable_witness :
    canonicalId (mkUserUrl (chars "www.facebook.com") (chars "zuck")) = some (chars "zuck") ∧
    canonicalId (mkUserUrlSeg (chars "m.facebook.com") (chars "zuck") (chars "about")) =
      some (chars "zuck") ∧
    canonicalId (mkIdUrl (chars "www.facebook.com") (chars "id=4")) = some (chars "4") ∧
    canonicalId (mkIdUrl (chars "m.facebook.com") (chars "id=4&ref=bk")) = some (chars "4") :=
  c8_normalization_stable (chars "www.facebook.com") (chars "m.facebook.com")
    (chars "zuck") (chars "about") (chars "id=4") (chars "id=4&ref=bk") (chars "4") [] []
    (by decide) (by decide) (by decide) (by decide) (by decide) (by decide) (by decide)
    (by decide) (by decide) (by decide) (by decide) (by decide) (by decide)

end DangerFinder
